import Mathlib

set_option maxHeartbeats 1000000

/-!
Shallow embedding of the Note-Block-Engine layout synthesis engine
(`noteblock.py`) and verification of the frozen claims about it.

Conventions of the embedding:
* the schematic's dense 3D grid (`SchematicFile`) is a `Canvas`, a total
  function from `(y, z, x)` coordinates (the axis order used by every
  `sf.blocks[y, z, x]` subscript in the source) to a `(block-id, data)` pair;
* Python `int` coordinates are `Int`; counters that the source keeps
  non-negative (`rows`, `cols`, `depth_max`, tick counts) are `Nat`;
* the two exception classes `PolyphonyException` and `TorchTowerException`
  become the error values of an `Except` monad;
* loops become folds or structural recursions on the same iteration ranges.
-/

-- ## Block identifiers and block values (`BlockID`, state enums, `Block`)

inductive BlockID where
  | air
  | planks
  | note_block
  | sticky_piston
  | gold_block
  | redstone_dust
  | lever
  | redstone_torch
  | glowstone
  | redstone_repeater
  | wooden_slab
  | redstone_block
  | packed_ice
deriving DecidableEq

/-- Numeric value of each member of the `BlockID` enum in the source. -/
def BlockID.value : BlockID → Nat
  | .air => 0
  | .planks => 5
  | .note_block => 25
  | .sticky_piston => 29
  | .gold_block => 41
  | .redstone_dust => 55
  | .lever => 69
  | .redstone_torch => 76
  | .glowstone => 89
  | .redstone_repeater => 93
  | .wooden_slab => 126
  | .redstone_block => 152
  | .packed_ice => 174

/-- Values of the `WoodState` enum. -/
def wood_birch : Nat := 2

def wood_dark_oak : Nat := 5

def wood_upside_down_dark_oak : Nat := 13

/-- Values of the `RedstoneTorchState` enum. -/
def torch_up : Nat := 0

def torch_east : Nat := 1

def torch_west : Nat := 2

def torch_south : Nat := 3

def torch_north : Nat := 4

inductive Direction where
  | north
  | east
  | south
  | west
  | up
  | down
deriving DecidableEq

/-- A block value: an id plus the optional numeric state (the source stores the
state enum member; only its `.value` is ever written to the grid). -/
structure Block where
  id : BlockID
  data : Option Nat
deriving DecidableEq

/-- Data value of `REDSTONE_TORCH_BLOCK[dir]` (the `RedstoneTorchState` table). -/
def torch_data : Direction → Nat
  | .up => torch_up
  | .east => torch_east
  | .west => torch_west
  | .south => torch_south
  | .north => torch_north
  | .down => torch_up

def REDSTONE_TORCH_BLOCK (dir : Direction) : Block :=
  ⟨BlockID.redstone_torch, some (torch_data dir)⟩

/-- Data value of `REDSTONE_REPEATER_BLOCK[dir][stage]`: the
`RedstoneRepeaterState` table lists `north_1 = 0, north_2 = 4, ...,
west_4 = 15`, i.e. facing value (north 0, east 1, south 2, west 3) plus
`4 * (stage - 1)` for stage `1..4`. -/
def repeater_data (dir : Direction) (stage : Nat) : Nat :=
  (match dir with
    | .north => 0
    | .east => 1
    | .south => 2
    | .west => 3
    | .up => 0
    | .down => 0) + 4 * (stage - 1)

def REDSTONE_REPEATER_BLOCK (dir : Direction) (stage : Nat) : Block :=
  ⟨BlockID.redstone_repeater, some (repeater_data dir stage)⟩

inductive Instrument where
  | bell
  | chime
  | harp
  | pling
  | bass
deriving DecidableEq

/-- The `INSTRUMENT_BLOCK` table. -/
def INSTRUMENT_BLOCK : Instrument → Block
  | .bell => ⟨BlockID.gold_block, none⟩
  | .chime => ⟨BlockID.packed_ice, none⟩
  | .harp => ⟨BlockID.air, none⟩
  | .pling => ⟨BlockID.glowstone, none⟩
  | .bass => ⟨BlockID.planks, some wood_dark_oak⟩

def REDSTONE_MAX : Nat := 15

def LINE_BLOCK : Block := ⟨BlockID.planks, some wood_birch⟩

def WIRING_BLOCK : Block := ⟨BlockID.planks, some wood_dark_oak⟩

def WIRING_SLAB : Block := ⟨BlockID.wooden_slab, some wood_upside_down_dark_oak⟩

-- ## The canvas (`SchematicFile` grid) and `place_block`

/-- One grid cell: the `(sf.blocks[...], sf.data[...])` pair. -/
abbrev Cell : Type := Nat × Nat

/-- The voxel grid, indexed `(y, z, x)` exactly as every subscript in the
source; modelled as a total function. -/
abbrev Canvas : Type := Int → Int → Int → Cell

def setCell (sf : Canvas) (y z x : Int) (v : Cell) : Canvas :=
  fun y' z' x' => if y' = y ∧ z' = z ∧ x' = x then v else sf y' z' x'

/-- `place_block(sf, x, y, z, offset_x, offset_y, offset_z, block)`: writes
`block.id.value` to `blocks` and the state value (0 when absent) to `data` at
the offset position. -/
def place_block (sf : Canvas) (x y z ox oy oz : Int) (b : Block) : Canvas :=
  setCell sf (y + oy) (z + oz) (x + ox) (b.id.value, b.data.getD 0)

-- ## Durations and song data (`parse_duration`, `parse_file`)

/-- A duration token: either a bare integer line ending or `num/denom`. -/
inductive Duration where
  | whole (n : Nat)
  | frac (num denom : Nat)
deriving DecidableEq

/-- `parse_duration(lcd, duration)`: a fraction contributes
`num * int(lcd / denom)`, a bare integer contributes `int(duration) * lcd`. -/
def parse_duration (lcd : Nat) : Duration → Nat
  | .frac num denom => num * (lcd / denom)
  | .whole n => n * lcd

/-- One step of the `song_info["lcd"]` accumulation in `parse_file`:
`lcm(denom, lcd)` for a fractional duration, unchanged otherwise. -/
def lcd_step (acc : Nat) : Duration → Nat
  | .frac _ denom => Nat.lcm denom acc
  | .whole _ => acc

/-- The `song_info["lcd"]` accumulation in `parse_file`: starting from 1,
fold `lcm(denom, lcd)` over the denominator of every fractional duration. -/
def lcdOf (durs : List Duration) : Nat :=
  durs.foldl lcd_step 1

/-- The `song_info["length"]` accumulation in `parse_file`, generalised over
the common denominator used for rescaling. -/
def songLengthWith (lcd : Nat) (durs : List Duration) : Nat :=
  durs.foldl (fun acc d => acc + parse_duration lcd d) 0

/-- Total length in ticks exactly as `parse_file` computes it. -/
def song_total (durs : List Duration) : Nat :=
  songLengthWith (lcdOf durs) durs

-- ## The delay staircase (`gen_delay_staircase`), C1

/-- The list of repeater stage delays placed along
`gen_delay_staircase(delay)`, in placement order: each of the
`depth_max - 2 = delay / 8` intermediate steps places two stage-4 repeaters
(`REDSTONE_REPEATER_BLOCK[west][4]` and `[east][4]`); the final step places a
`min(4, tuned)` stage repeater where `tuned = delay % 8` (or 8 when the
remainder is 0), plus a `tuned - 4` stage repeater on the return lane exactly
when `tuned > 4`. -/
def staircase_stages (delay : Nat) : List Nat :=
  let depth_max := delay / 8 + 2
  let tuned := if delay % 8 > 0 then delay % 8 else 8
  (List.range (depth_max - 2)).flatMap (fun _ => [4, 4]) ++
    ([min 4 tuned] ++ if tuned > 4 then [tuned - 4] else [])

/-- Sum of all repeater stage delays along the staircase. -/
def staircase_total (delay : Nat) : Nat := (staircase_stages delay).sum

-- ## The clock row selection in `gen_engine`, C6

/-- The initial remaining delay budget:
`delay_remaining = tick_interval * (int(rows / 2) - 1) - 5` (signed: for small
`rows` or `tick_interval` this is negative). -/
def delay_remaining_init (ti rows : Nat) : Int :=
  (ti : Int) * (((rows / 2 : Nat) : Int) - 1) - 5

/-- Lower edge of the delay window of candidate row `r`:
`delay_lo = (tick_interval + 2) * row`. -/
def window_lo (ti : Nat) (r : Nat) : Int :=
  ((ti : Int) + 2) * (r : Int)

/-- Membership of the delay budget in the window `[lo, lo + 7]` of row `r`. -/
def in_window (ti : Nat) (dr : Int) (r : Nat) : Prop :=
  window_lo ti r ≤ dr ∧ dr ≤ window_lo ti r + 7

instance (ti : Nat) (dr : Int) (r : Nat) : Decidable (in_window ti dr r) := by
  unfold in_window
  infer_instance

/-- The scan body of the row-selection loop in `gen_engine`: for each
candidate row, raise (`none`) when `delay_remaining < delay_lo`, select the
row when `delay_remaining <= delay_hi`, otherwise continue; falling off the
end leaves `row_select == -1`, which also raises. -/
def row_scan (ti : Nat) (dr : Int) : List Nat → Option Nat
  | [] => none
  | r :: rest =>
    if dr < window_lo ti r then none
    else if dr ≤ window_lo ti r + 7 then some r
    else row_scan ti dr rest

/-- The row selection of `gen_engine`: scan `row in range(1, rows)`;
`none` models a raised `TorchTowerException`. -/
def row_select (ti rows : Nat) : Option Nat :=
  row_scan ti (delay_remaining_init ti rows) (List.range' 1 (rows - 1))

-- ## Note placement (`place_note_block`, `gen_notes`)

/-- A `BlockEntity` record appended by `place_note_block`: the position and
the stored pitch byte. -/
structure Ent where
  x : Int
  y : Int
  z : Int
  note : Nat
deriving DecidableEq

/-- The canvas together with the ordered `sf.blockentities` list. -/
structure NBState where
  sf : Canvas
  ents : List Ent

/-- The fatal construction errors. `geom` marks a region rotation whose shift
exceeds the region height, where the in-place cycle walk of
`cycle_area_down` indexes outside the rotated region (see `cycle_column`). -/
inductive GenErr where
  | polyphony
  | torchTower
  | geom
deriving DecidableEq

/-- `place_note_block`: places the note block, appends the block-entity
record, places the instrument block one level below, and returns that
instrument block. -/
def place_note_block (st : NBState) (x y z ox oy oz : Int)
    (instrument : Instrument) (pitch : Nat) : NBState × Block :=
  let sf1 := place_block st.sf x y z ox oy oz ⟨BlockID.note_block, none⟩
  let ents1 := st.ents ++ [⟨x + ox, y + oy, z + oz, pitch⟩]
  let block := INSTRUMENT_BLOCK instrument
  let sf2 := place_block sf1 x y z ox (oy - 1) oz block
  (⟨sf2, ents1⟩, block)

/-- Fuelled body of the `while attempt in prev_allocs` scan of `gen_notes`:
advance `attempt` past every active slot, raising `PolyphonyException` as
soon as an incremented attempt reaches `depth_max`. The loop body recurses
only while `attempt + 1 < depth_max`, so it runs fewer than `depth_max`
times and the zero-fuel branch is unreachable from `find_slot`. -/
def find_slot_go (prev : List Nat) (depth_max : Nat) : Nat → Nat → Except GenErr Nat
  | _, 0 => .error .polyphony
  | attempt, fuel + 1 =>
    if attempt ∈ prev then
      if depth_max ≤ attempt + 1 then .error .polyphony
      else find_slot_go prev depth_max (attempt + 1) fuel
    else .ok attempt

/-- The inner `while attempt in prev_allocs` scan of `gen_notes`. -/
def find_slot (prev : List Nat) (depth_max attempt : Nat) : Except GenErr Nat :=
  find_slot_go prev depth_max attempt (depth_max + 1)

/-- Accumulator of the inner per-chord loop of `gen_notes`. -/
structure ChordAcc where
  st : NBState
  allocs : List Nat
  attempt : Nat
  depth : Nat

/-- The `for note in chord` loop of `gen_notes`: find the slot for each note,
place its note block there, record the slot as active when the instrument
block is not air, and track `depth_reached = max(depth_reached, attempt+1)`. -/
def place_chord (x y z : Int) (depth_max : Nat) (y_base z_base : Int)
    (prev : List Nat) (acc : ChordAcc) :
    List (Instrument × Nat) → Except GenErr ChordAcc
  | [] => .ok acc
  | note :: rest =>
    match find_slot prev depth_max acc.attempt with
    | .error e => .error e
    | .ok a =>
      let pb := place_note_block acc.st x y z (a : Int) y_base z_base note.1 note.2
      let allocs1 := if pb.2.id ≠ BlockID.air then acc.allocs ++ [a] else acc.allocs
      place_chord x y z depth_max y_base z_base prev
        ⟨pb.1, allocs1, a + 1, max acc.depth (a + 1)⟩ rest

/-- Accumulator of the outer event loop of `gen_notes`: the canvas state, the
allocations carried to the next event, `depth_reached` and the cumulative
tick counter `i`. -/
structure NotesAcc where
  st : NBState
  prev : List Nat
  depth : Nat
  i : Nat

/-- The song record consumed by `gen_notes`/`export_schematic`: the parsed
events (each chord already looked up through the fixed note table to
`(instrument, pitch)` pairs), the LCD, the total length and the chosen tick
interval. -/
structure SongInfo where
  notes : List (List (Instrument × Nat) × Duration)
  lcd : Nat
  length : Nat
  tick_interval : Nat

/-- One iteration of the event loop of `gen_notes`: compute the cell from the
cumulative counter `i` (`col = i / rows`, `row = i % rows`), reset the active
set when `row == 0`, place the chord, and advance `i` by the rescaled
duration. -/
def gen_notes_event (x y z : Int) (rows depth_max lcd : Nat) (acc : NotesAcc)
    (ev : List (Instrument × Nat) × Duration) : Except GenErr NotesAcc :=
  let col := acc.i / rows
  let row := acc.i % rows
  let y_base : Int := 2 * ((rows : Int) - (row : Int)) - 1
  let z_base : Int := (col : Int) * 2 + 1
  let prev := if row = 0 then [] else acc.prev
  match place_chord x y z depth_max y_base z_base prev ⟨acc.st, [], 0, acc.depth⟩ ev.1 with
  | .error e => .error e
  | .ok c => .ok ⟨c.st, c.allocs, c.depth, acc.i + parse_duration lcd ev.2⟩

def gen_notes_go (x y z : Int) (rows depth_max lcd : Nat) (acc : NotesAcc) :
    List (List (Instrument × Nat) × Duration) → Except GenErr NotesAcc
  | [] => .ok acc
  | ev :: rest =>
    match gen_notes_event x y z rows depth_max lcd acc ev with
    | .error e => .error e
    | .ok acc1 => gen_notes_go x y z rows depth_max lcd acc1 rest

/-- `gen_notes(sf, x, y, z, rows, cols, depth_max, song_info)`; the `cols`
argument is unused by the source body and kept for signature fidelity. -/
def gen_notes (st : NBState) (x y z : Int) (rows cols depth_max : Nat)
    (song : SongInfo) : Except GenErr (NBState × Nat) :=
  match gen_notes_go x y z rows depth_max song.lcd ⟨st, [], 0, 0⟩ song.notes with
  | .error e => .error e
  | .ok acc => .ok (acc.st, acc.depth)

/-- The block-entity list of a `gen_notes` result (empty on error). -/
def entsOf (r : Except GenErr (NBState × Nat)) : List Ent :=
  match r with
  | .ok p => p.1.ents
  | .error _ => []

/-- The returned `depth_reached` of a `gen_notes` result (0 on error). -/
def depthOf (r : Except GenErr (NBState × Nat)) : Nat :=
  match r with
  | .ok p => p.2
  | .error _ => 0

/-- Whether an `Except` result is a normal return. -/
def genOk {α : Type} (r : Except GenErr α) : Bool :=
  match r with
  | .ok _ => true
  | .error _ => false

/-- Modelled from the claim's wording: pair each event with the cumulative sum
of the rescaled durations of the preceding events (this is the value of the
source's `i` counter when the event is processed). -/
def eventOffsets (lcd t : Nat) :
    List (List (Instrument × Nat) × Duration) →
      List (Nat × (List (Instrument × Nat) × Duration))
  | [] => []
  | ev :: rest => (t, ev) :: eventOffsets lcd (t + parse_duration lcd ev.2) rest

/-- Cell coordinates of an event at cumulative offset `t`:
`(y + y_base, z + z_base)` with `y_base = 2 * (rows - t % rows) - 1` and
`z_base = (t / rows) * 2 + 1`. -/
def cellOf (rows : Nat) (y z : Int) (t : Nat) : Int × Int :=
  (y + (2 * ((rows : Int) - ((t % rows : Nat) : Int)) - 1),
    z + (((t / rows : Nat) : Int) * 2 + 1))

/-- The all-air canvas (`SchematicFile` starts zeroed). -/
def emptyCanvas : Canvas := fun _ _ _ => (0, 0)

def emptyState : NBState := ⟨emptyCanvas, []⟩

/-- Concrete two-event song for C7: a lone `C4` (`(harp, 6)`) held for 2
units, then another one for 1 unit; no fractional durations, so the LCD is 1. -/
def c7song : SongInfo :=
  ⟨[([(Instrument.harp, 6)], .whole 2), ([(Instrument.harp, 6)], .whole 1)], 1, 3, 1⟩

/-- Concrete one-chord song for C2: two bell notes in one chord. -/
def c2song : SongInfo :=
  ⟨[([(Instrument.bell, 3), (Instrument.bell, 5)], .whole 1)], 1, 1, 1⟩

/-- Concrete one-chord song for the C10 witness: a chord of an air-backed
harp note and a gold-backed bell note. -/
def c10song : SongInfo :=
  ⟨[([(Instrument.harp, 6), (Instrument.bell, 3)], .whole 1)], 1, 1, 1⟩

-- ## Geometric region transforms (`copy_area`, `stack_area`)

/-- Extent of an inclusive coordinate interval: the length of Python's
`range(lo, hi + 1)`. -/
def extent (lo hi : Int) : Nat := (hi + 1 - lo).toNat

/-- Python's `zip(range(lo1, hi1 + 1), range(lo2, hi2 + 1))`: the paired
coordinates `(lo1 + t, lo2 + t)` for `t` below the shorter of the two range
lengths (zip truncates to the shorter iterable). -/
def zipRange (lo1 hi1 lo2 hi2 : Int) : List (Int × Int) :=
  (List.range (min (extent lo1 hi1) (extent lo2 hi2))).map
    (fun (t : Nat) => (lo1 + (t : Int), lo2 + (t : Int)))

/-- `copy_area`: three nested loops over the zipped source/destination ranges
of each axis (mismatched extents are silently truncated by `zip` to the
shorter range), copying the `(blocks, data)` cell pair one coordinate at a
time, in increasing coordinate order, reading from the canvas as it stands
at that moment. -/
def copy_area (sf : Canvas)
    (sxl syl szl sxh syh szh dxl dyl dzl dxh dyh dzh : Int) : Canvas :=
  (zipRange sxl sxh dxl dxh).foldl
    (fun c p =>
      (zipRange syl syh dyl dyh).foldl
        (fun c q =>
          (zipRange szl szh dzl dzh).foldl
            (fun c r => setCell c q.2 r.2 p.2 (c q.1 r.1 p.1))
            c)
        c)
    sf

/-- `stack_area`: `up_times` copies of the region stacked upward, each offset
from the original by `(i + 1) * height` with `height = y_hi - y_lo + 1`; then
`east_times` copies of the up-extended region offset by `(i + 1) * width`
with `width = z_hi - z_lo + 1`; then `south_times` copies offset by
`(i + 1) * depth`, where the source computes `depth = x_hi + x_lo + 1` (not
the extent `x_hi - x_lo + 1`) and grows `z_hi` by `up_times * width` (not
`east_times * width`). -/
def stack_area (sf : Canvas) (x_lo y_lo z_lo x_hi y_hi z_hi : Int)
    (up_times east_times south_times : Nat) : Canvas :=
  let height := y_hi - y_lo + 1
  let sf1 := (List.range up_times).foldl
    (fun c (i : Nat) => copy_area c x_lo y_lo z_lo x_hi y_hi z_hi
      x_lo (y_lo + ((i : Int) + 1) * height) z_lo
      x_hi (y_hi + ((i : Int) + 1) * height) z_hi) sf
  let width := z_hi - z_lo + 1
  let y_hi1 := y_hi + (up_times : Int) * height
  let sf2 := (List.range east_times).foldl
    (fun c (i : Nat) => copy_area c x_lo y_lo z_lo x_hi y_hi1 z_hi
      x_lo y_lo (z_lo + ((i : Int) + 1) * width)
      x_hi y_hi1 (z_hi + ((i : Int) + 1) * width)) sf1
  let depth := x_hi + x_lo + 1
  let z_hi1 := z_hi + (up_times : Int) * width
  (List.range south_times).foldl
    (fun c (i : Nat) => copy_area c x_lo y_lo z_lo x_hi y_hi1 z_hi1
      (x_lo + ((i : Int) + 1) * depth) y_lo z_lo
      (x_hi + ((i : Int) + 1) * depth) y_hi1 z_hi1) sf2

/-- One cell-copy operation: the source and destination coordinate triples,
both in the `(y, z, x)` indexing order of the grid. -/
abbrev CopyOp : Type := (Int × Int × Int) × (Int × Int × Int)

/-- Sequential execution of cell-copy operations on the canvas, reading the
current canvas like the in-place loop of `copy_area`. -/
def runCopy (ops : List CopyOp) (c : Canvas) : Canvas :=
  ops.foldl (fun c op => setCell c op.2.1 op.2.2.1 op.2.2.2 (c op.1.1 op.1.2.1 op.1.2.2)) c

/-- The cell-copy operations of `copy_area` in execution order, given the
truncated per-axis counts `nx, ny, nz`. -/
def copyOps (sxl syl szl dxl dyl dzl : Int) (nx ny nz : Nat) : List CopyOp :=
  (List.range nx).flatMap (fun (i : Nat) =>
    (List.range ny).flatMap (fun (j : Nat) =>
      (List.range nz).map (fun (k : Nat) =>
        ((syl + (j : Int), szl + (k : Int), sxl + (i : Int)),
          (dyl + (j : Int), dzl + (k : Int), dxl + (i : Int))))))

-- ## In-place vertical rotation (`cycle_area_down`)

/-- The list of integer coordinates of Python's `range(lo, hi + 1)`. -/
def intRange (lo hi : Int) : List Int :=
  (List.range (extent lo hi)).map (fun (t : Nat) => lo + (t : Int))

/-- The `k = j + times; if k >= height: k = k - height` index step of the
rotation walk: a single conditional subtraction, which equals
`(j + times) % height` exactly when `j < height` and `times <= height`. -/
def cycStep (height times j : Nat) : Nat :=
  if height ≤ j + times then j + times - height else j + times

/-- The inner `while True` walk of `cycle_area_down` on one extracted column:
repeatedly move the element `times` positions ahead back to the current
position until the cycle closes at `i`, then write the saved `temp`. Reads
are `List.get?`: an index outside the column — which the walk produces for
every `times > height`, stepping outside the rotated region in the source —
aborts with `none`. The fuel only bounds the closing search; `height + 1`
steps always suffice when `times <= height`, because a cycle visits at most
`height` distinct positions. -/
def cycWalk {α : Type} (height times i : Nat) (temp : α) :
    Nat → List α → Nat → Option (List α)
  | _, _, 0 => none
  | j, a, fuel + 1 =>
    let k := cycStep height times j
    if k = i then some (a.set j temp)
    else
      match a.get? k with
      | none => none
      | some v => cycWalk height times i temp k (a.set j v) fuel

/-- One cycle of the rotation (one iteration of `for i in range(gcd(times,
height))`): save `temp = a[i]` and walk the cycle starting at `i`. -/
def cycOne {α : Type} (height times : Nat) (a : List α) (i : Nat) : Option (List α) :=
  match a.get? i with
  | none => none
  | some temp => cycWalk height times i temp i a (height + 1)

/-- The per-column body of `cycle_area_down` on the extracted column list
(`height = a.length`): `gcd(times, height)` cycles, in order. -/
def cycle_column {α : Type} (times : Nat) (a : List α) : Option (List α) :=
  (List.range (Nat.gcd times a.length)).foldlM
    (fun acc i => cycOne a.length times acc i) a

/-- The vertical column of the canvas at `(z, x)`: the cells
`y_lo .. y_lo + height - 1`, bottom first, exactly the cells the source's
per-column loop reads and writes. -/
def colOf (sf : Canvas) (y_lo : Int) (height : Nat) (z x : Int) : List Cell :=
  (List.range height).map (fun (k : Nat) => sf (y_lo + (k : Int)) z x)

/-- Writing a column back into the canvas at `(z, x)`. -/
def putCol (sf : Canvas) (y_lo z x : Int) (col : List Cell) : Canvas :=
  fun y' z' x' =>
    if z' = z ∧ x' = x ∧ y_lo ≤ y' ∧ y' < y_lo + (col.length : Int) then
      col.getD (y' - y_lo).toNat (0, 0)
    else sf y' z' x'

/-- `cycle_area_down(sf, x_lo, y_lo, z_lo, x_hi, y_hi, z_hi, times)`: for
each `(x, z)` of the region (x outer, z inner, both ascending), rotate the
vertical column of `height = y_hi - y_lo + 1` cells downward by `times`
using the in-place cycle-decomposition walk. Each column is modelled by
extracting the column list, running the same walk on it, and writing it
back; the columns are pairwise disjoint and the walk touches only its own
column, so this matches the in-place mutation. -/
def cycle_area_down (sf : Canvas) (x_lo y_lo z_lo x_hi y_hi z_hi : Int)
    (times : Nat) : Option Canvas :=
  let height := extent y_lo y_hi
  (intRange x_lo x_hi).foldlM (fun c x =>
    (intRange z_lo z_hi).foldlM (fun c z =>
      match cycle_column times (colOf c y_lo height z x) with
      | none => none
      | some col1 => some (putCol c y_lo z x col1)) c) sf

/-- Position visited at step `u` of the rotation cycle that starts at `i`:
`(i + u * times) % height`. -/
def cycPos (height times i u : Nat) : Nat := (i + u * times) % height

/-- The rotated canvas: within the region every column is cyclically shifted
down by `times` (the cell at height offset `k` receives the cell at offset
`(k + times) % height`); everything else is untouched. -/
def regionRot (sf : Canvas) (x_lo y_lo z_lo x_hi y_hi z_hi : Int)
    (times : Nat) : Canvas :=
  fun y' z' x' =>
    if x_lo ≤ x' ∧ x' ≤ x_hi ∧ z_lo ≤ z' ∧ z' ≤ z_hi ∧ y_lo ≤ y' ∧
        y' < y_lo + (extent y_lo y_hi : Int) then
      sf (y_lo + ((((y' - y_lo).toNat + times) % extent y_lo y_hi : Nat) : Int)) z' x'
    else sf y' z' x'

/-- Membership of a coordinate in the box `[yl, yl + ny) x [zl, zl + nz) x
[xl, xl + nx)` (in `(y, z, x)` order). -/
def inBox3 (yl zl xl : Int) (ny nz nx : Nat) (y z x : Int) : Prop :=
  yl ≤ y ∧ y < yl + (ny : Int) ∧ zl ≤ z ∧ z < zl + (nz : Int) ∧
    xl ≤ x ∧ x < xl + (nx : Int)

instance (yl zl xl : Int) (ny nz nx : Nat) (y z x : Int) :
    Decidable (inBox3 yl zl xl ny nz nx y z x) := by
  unfold inBox3
  infer_instance

/-- Concrete canvas for the C4 and C5 evaluations: each cell holds its own
`x` coordinate. -/
def coordCanvas : Canvas := fun _ _ x => (x.toNat, 0)

-- ## The full clock assembly (`gen_lines`, `gen_delay_staircase`,
-- `gen_torch_tower`, `gen_engine`) and the orchestrator (`export_schematic`)

def AIR_BLOCK : Block := ⟨BlockID.air, none⟩

def DUST_BLOCK : Block := ⟨BlockID.redstone_dust, none⟩

/-- `gen_lines`: the wiring lines over the note-layout footprint. -/
def gen_lines (sf : Canvas) (x y z : Int) (rows cols len : Nat) (block : Block) :
    Canvas :=
  (List.range cols).foldl (fun sf (col : Nat) =>
    (List.range rows).foldl (fun sf (row : Nat) =>
      (List.range len).foldl (fun sf (depth : Nat) =>
        let sf := place_block sf x y z (depth : Int) ((row : Int) * 2)
          ((col : Int) * 2) block
        place_block sf x y z (depth : Int) ((row : Int) * 2 + 1)
          ((col : Int) * 2) DUST_BLOCK) sf) sf) sf

/-- `gen_delay_staircase` as a canvas transform, returning the canvas and the
physical depth `depth_max + 1` it consumed (the `slab` argument is unused by
the source body, which hard-codes the upside-down slab). -/
def gen_delay_staircase (sf : Canvas) (x y z : Int) (delay : Nat)
    (block slab : Block) : Canvas × Nat :=
  let depth_max := delay / 8 + 2
  let sf := place_block sf x y z 0 0 0 DUST_BLOCK
  let sf := place_block sf x y z 0 1 0 block
  let sf := place_block sf x y z 0 3 0 block
  let sf := (List.range (depth_max - 2)).foldl (fun sf (depth : Nat) =>
    let sf := place_block sf x y z (1 + (depth : Int)) 0 0 block
    let sf := place_block sf x y z (1 + (depth : Int)) 1 0
      (REDSTONE_REPEATER_BLOCK Direction.west 4)
    let sf := place_block sf x y z (1 + (depth : Int)) 2 0 block
    place_block sf x y z (1 + (depth : Int)) 3 0
      (REDSTONE_REPEATER_BLOCK Direction.east 4)) sf
  let sf := place_block sf x y z ((depth_max : Int) - 1) 0 0
    ⟨BlockID.planks, some wood_dark_oak⟩
  let sf := if delay ≤ 4 then
      place_block sf x y z ((depth_max : Int) - 1) 0 0
        ⟨BlockID.wooden_slab, some wood_upside_down_dark_oak⟩
    else sf
  let tuned := if delay % 8 > 0 then delay % 8 else 8
  let sf := place_block sf x y z ((depth_max : Int) - 1) 1 0
    (REDSTONE_REPEATER_BLOCK Direction.west (min 4 tuned))
  let sf := place_block sf x y z ((depth_max : Int) - 1) 2 0 block
  let sf := if tuned > 4 then
      let sf := place_block sf x y z ((depth_max : Int) - 1) 3 0
        (REDSTONE_REPEATER_BLOCK Direction.east (tuned - 4))
      place_block sf x y z (depth_max : Int) 3 0 block
    else place_block sf x y z ((depth_max : Int) - 1) 3 0 DUST_BLOCK
  let sf := place_block sf x y z (depth_max : Int) 1 0 block
  let sf := place_block sf x y z (depth_max : Int) 2 0 DUST_BLOCK
  (sf, depth_max + 1)

/-- `gen_torch_tower`: alternating filler block and upward torch. -/
def gen_torch_tower (sf : Canvas) (x y z : Int) (height : Nat) (block : Block) :
    Canvas :=
  (List.range height).foldl (fun sf (i : Nat) =>
    if i % 2 = 0 then place_block sf x y z 0 (i : Int) 0 block
    else place_block sf x y z 0 (i : Int) 0 (REDSTONE_TORCH_BLOCK Direction.up)) sf

/-- `gen_engine`: the dual staircase, rotations, torch towers, row selection
and final tuning, transcribed statement by statement. The two rotation calls
go through the fallible `cycle_area_down` (`geom` on failure, which never
happens for the shifts 2 and 3 against height 4); `TorchTowerException`
becomes `.error .torchTower` via `row_select`. -/
def gen_engine (sf : Canvas) (x y z : Int) (rows cols ti : Nat)
    (block slab : Block) : Except GenErr Canvas :=
  let sf := place_block sf x y z 0 0 0 (REDSTONE_TORCH_BLOCK Direction.north)
  let sf := place_block sf x y z 0 1 0 slab
  let sf := place_block sf x y z 0 2 0 (REDSTONE_REPEATER_BLOCK Direction.west 1)
  let p := gen_delay_staircase sf (x + 1) y z ti block slab
  let sf := p.1
  let stair_depth : Nat := p.2
  match cycle_area_down sf (x + 1) y z (x + 1 + (stair_depth : Int)) (y + 3) z 2 with
  | none => .error .geom
  | some sf =>
    let p2 := gen_delay_staircase sf x y (z + 1) ti block slab
    let sf := p2.1
    match cycle_area_down sf x y (z + 1) (x + (stair_depth : Int)) (y + 3) (z + 1) 3 with
    | none => .error .geom
    | some sf =>
      let sf := stack_area sf x y z (x + 1 + (stair_depth : Int)) (y + 3) (z + 1)
        (rows / 2 - 1) 0 0
      let sf := (List.range (stair_depth - 1)).foldl (fun sf (x_i : Nat) =>
        let sf := place_block sf x y z (1 + (x_i : Int)) ((rows : Int) * 2 - 1) 1 AIR_BLOCK
        let sf := place_block sf x y z (2 + (x_i : Int)) 0 0 AIR_BLOCK
        let sf := place_block sf x y z (2 + (x_i : Int)) 1 0 AIR_BLOCK
        place_block sf x y z (1 + (x_i : Int)) 0 1 AIR_BLOCK) sf
      let sf := place_block sf x y z (1 + (stair_depth : Int)) (2 * (rows : Int) - 3) 0
        (REDSTONE_TORCH_BLOCK Direction.south)
      let sf := place_block sf x y z (2 + (stair_depth : Int)) (2 * (rows : Int) - 3) 0 block
      let sf := place_block sf x y z (stair_depth : Int) (2 * (rows : Int) - 3) 1 block
      let sf := place_block sf x y z (1 + (stair_depth : Int)) (2 * (rows : Int) - 3) 1 block
      let sf := place_block sf x y z (2 + (stair_depth : Int)) (2 * (rows : Int) - 3) 1
        (REDSTONE_TORCH_BLOCK Direction.south)
      let sf := place_block sf x y z (1 + (stair_depth : Int)) (2 * (rows : Int) - 2) 0 block
      let sf := place_block sf x y z (2 + (stair_depth : Int)) (2 * (rows : Int) - 2) 0
        (REDSTONE_TORCH_BLOCK Direction.south)
      let sf := place_block sf x y z (1 + (stair_depth : Int)) (2 * (rows : Int) - 2) 1
        (REDSTONE_TORCH_BLOCK Direction.south)
      let sf := place_block sf x y z (2 + (stair_depth : Int)) (2 * (rows : Int) - 2) 1 block
      let sf := place_block sf x y z (2 + (stair_depth : Int)) (2 * (rows : Int) - 1) 0 block
      match row_select ti rows with
      | none => .error .torchTower
      | some row =>
        let sf := place_block sf x y z (stair_depth : Int)
          (2 * (rows : Int) - 4 * (row : Int) - 6) 1 block
        let sf := place_block sf x y z (stair_depth : Int)
          (2 * (rows : Int) - 4 * (row : Int) - 5) 1 DUST_BLOCK
        let sf := place_block sf x y z (1 + (stair_depth : Int))
          (2 * (rows : Int) - 4 * (row : Int) - 5) 1 block
        let sf := place_block sf x y z (1 + (stair_depth : Int))
          (2 * (rows : Int) - 4 * (row : Int) - 4) 0 block
        let sf := place_block sf x y z (stair_depth : Int)
          (2 * (rows : Int) - 4 * (row : Int) - 4) 1 block
        let sf := place_block sf x y z (2 + (stair_depth : Int))
          (2 * (rows : Int) - 4 * (row : Int) - 4) 0 (REDSTONE_TORCH_BLOCK Direction.east)
        let sf := place_block sf x y z (1 + (stair_depth : Int))
          (2 * (rows : Int) - 4 * (row : Int) - 4) 1 (REDSTONE_TORCH_BLOCK Direction.up)
        let dr1 : Int := delay_remaining_init ti rows - (row : Int) * (ti : Int)
        let sf := gen_torch_tower sf (x + 2 + (stair_depth : Int))
          (y + 2 * (rows : Int) - 4 * (row : Int) - 3) z (4 * row) block
        let sf := gen_torch_tower sf (x + 1 + (stair_depth : Int))
          (y + 2 * (rows : Int) - 4 * (row : Int) - 3) (z + 1) (4 * row) block
        let dr2 : Int := dr1 - 2 * (row : Int)
        let q : Canvas × Int := if dr2 ≥ 4 then
            let sf := place_block sf x y z ((stair_depth : Int) - 1)
              (2 * (rows : Int) - 3) 1 block
            let sf := place_block sf x y z (stair_depth : Int)
              (2 * (rows : Int) - 2) 0 block
            let sf := place_block sf x y z ((stair_depth : Int) - 1)
              (2 * (rows : Int) - 2) 1 (REDSTONE_REPEATER_BLOCK Direction.west 4)
            let sf := place_block sf x y z (stair_depth : Int)
              (2 * (rows : Int) - 1) 0 (REDSTONE_REPEATER_BLOCK Direction.west 4)
            (sf, dr2 - 4)
          else (sf, dr2)
        let sf := q.1
        let dr3 : Int := q.2
        let sf := place_block sf x y z (stair_depth : Int) (2 * (rows : Int) - 2) 1
          (REDSTONE_REPEATER_BLOCK Direction.west (1 + dr3).toNat)
        let sf := place_block sf x y z (1 + (stair_depth : Int)) (2 * (rows : Int) - 1) 0
          (REDSTONE_REPEATER_BLOCK Direction.west (1 + dr3).toNat)
        let sf := place_block sf x y z ((stair_depth : Int) + 1) (2 * (rows : Int) - 7) 0
          (REDSTONE_TORCH_BLOCK Direction.west)
        let sf := place_block sf x y z (stair_depth : Int) (2 * (rows : Int) - 7) 1
          (REDSTONE_TORCH_BLOCK Direction.west)
        let sf := place_block sf x y z ((stair_depth : Int) + 1) (2 * (rows : Int) - 6) 0 block
        let sf := place_block sf x y z ((stair_depth : Int) + 2) (2 * (rows : Int) - 6) 0
          (REDSTONE_TORCH_BLOCK Direction.east)
        let sf := place_block sf x y z (stair_depth : Int) (2 * (rows : Int) - 6) 1 block
        let sf := place_block sf x y z ((stair_depth : Int) + 1) (2 * (rows : Int) - 6) 1
          (REDSTONE_TORCH_BLOCK Direction.east)
        let sf := stack_area sf x y z (x + 2 + (stair_depth : Int))
          (y + ((rows / 2 : Nat) : Int) * 4 - 1) (z + 1) 0 (cols - 1) 0
        let sf := (List.range stair_depth).foldl (fun sf (x_i : Nat) =>
          let sf := place_block sf x y z (1 + (x_i : Int)) (2 * (rows : Int) - 3) 1 AIR_BLOCK
          let sf := place_block sf x y z (2 + (x_i : Int)) (2 * (rows : Int) - 2) 0 AIR_BLOCK
          let sf := place_block sf x y z (1 + (x_i : Int)) (2 * (rows : Int) - 2) 1 AIR_BLOCK
          place_block sf x y z (2 + (x_i : Int)) (2 * (rows : Int) - 1) 0 AIR_BLOCK) sf
        let sf := place_block sf x y z ((stair_depth : Int) + 1) (2 * (rows : Int) - 3) 0 AIR_BLOCK
        let sf := place_block sf x y z ((stair_depth : Int) + 2) (2 * (rows : Int) - 2) 0 AIR_BLOCK
        let sf := place_block sf x y z ((stair_depth : Int) + 1) (2 * (rows : Int) - 2) 1 AIR_BLOCK
        let sf := place_block sf x y z 0 (2 * (rows : Int) - 2) 1 AIR_BLOCK
        let sf := place_block sf x y z 1 (2 * (rows : Int) - 1) 0 AIR_BLOCK
        let sf := place_block sf x y z (stair_depth : Int) (2 * (rows : Int) - 1) 0 AIR_BLOCK
        let sf := place_block sf x y z ((stair_depth : Int) + 2) (2 * (rows : Int) - 1) 0 AIR_BLOCK
        .ok sf

/-- The serialized output of `sf.save`: the finished grid and its
block-entity records. Produced only by the final line of
`export_schematic`. -/
structure Saved where
  sf : Canvas
  ents : List Ent

/-- `export_schematic(filename, song_info, rows)`: size the canvas
(`cols = ceil(length / rows)`,
`depth_max = REDSTONE_MAX + 6 + int(abs((tick_interval - 1) / 8))`), run
`gen_notes`, `gen_lines` and `gen_engine` in order on a zeroed grid, and
only then serialize. The shape bookkeeping (`width_max`, `height_max`, the
`assert` on `sf.shape`) has no observable effect on the unbounded canvas
model and is omitted. -/
def export_schematic (song : SongInfo) (rows : Nat) : Except GenErr Saved :=
  let cols := (song.length + rows - 1) / rows
  let depth_max := REDSTONE_MAX + 6 + (song.tick_interval - 1) / 8
  match gen_notes ⟨emptyCanvas, []⟩ 0 0 0 rows cols depth_max song with
  | .error e => .error e
  | .ok (st1, depth_reached) =>
    let sf2 := gen_lines st1.sf 0 1 0 rows cols depth_reached LINE_BLOCK
    match gen_engine sf2 (depth_reached : Int) 2 0 rows cols song.tick_interval
        WIRING_BLOCK WIRING_SLAB with
    | .error e => .error e
    | .ok sf3 => .ok ⟨sf3, st1.ents⟩

/-- Concrete song for the C9 witness: a 22-note bell chord saturates the
slot capacity `depth_max = 21` (at `tick_interval = 1`), so the second
event's allocation scan raises `PolyphonyException`. -/
def c9song : SongInfo :=
  ⟨[(List.replicate 22 (Instrument.bell, 3), .whole 1),
    ([(Instrument.bell, 3)], .whole 1)], 1, 2, 1⟩

-- ## Supporting lemmas

theorem foldl_add_eq_sum {α : Type} (f : α → Nat) (l : List α) (a : Nat) :
    l.foldl (fun acc d => acc + f d) a = a + (l.map f).sum := by
  induction l generalizing a with
  | nil => simp
  | cons d rest ih =>
    simp only [List.foldl_cons, List.map_cons, List.sum_cons, ih (a + f d)]
    omega

theorem songLengthWith_eq_sum (L : Nat) (durs : List Duration) :
    songLengthWith L durs = (durs.map (parse_duration L)).sum := by
  unfold songLengthWith
  simpa using foldl_add_eq_sum (parse_duration L) durs 0

theorem lcd_fold_dvd_init (durs : List Duration) (init den : Nat) (h : den ∣ init) :
    den ∣ durs.foldl lcd_step init := by
  induction durs generalizing init with
  | nil => simpa using h
  | cons d rest ih =>
    cases d with
    | whole n => simpa [lcd_step] using ih init h
    | frac n d' =>
      simp only [List.foldl_cons, lcd_step]
      exact ih _ (h.trans (Nat.dvd_lcm_right _ _))

theorem denom_dvd_lcd_fold (durs : List Duration) (init n den : Nat)
    (h : Duration.frac n den ∈ durs) : den ∣ durs.foldl lcd_step init := by
  induction durs generalizing init with
  | nil => cases h
  | cons d rest ih =>
    rcases List.mem_cons.mp h with h1 | h2
    · subst h1
      simp only [List.foldl_cons, lcd_step]
      exact lcd_fold_dvd_init rest _ den (Nat.dvd_lcm_left _ _)
    · simpa using ih (lcd_step init d) h2

theorem denom_dvd_lcdOf (durs : List Duration) (n den : Nat)
    (h : Duration.frac n den ∈ durs) : den ∣ lcdOf durs :=
  denom_dvd_lcd_fold durs 1 n den h

theorem parse_duration_mul (L m : Nat) (d : Duration)
    (h : ∀ n den, d = .frac n den → den ∣ L) :
    parse_duration (m * L) d = m * parse_duration L d := by
  cases d with
  | whole n => simp [parse_duration]; ring
  | frac n den =>
    have hdvd : den ∣ L := h n den rfl
    simp only [parse_duration]
    rw [Nat.mul_div_assoc m hdvd]
    ring

-- ## C1

/-- C1: the sum of repeater stage delays along `gen_delay_staircase(8)` is 16,
not 8: for a delay divisible by 8 the code builds `delay / 8` full 8-tick
intermediate steps and then also tunes the final step to a full 8 ticks (the
remainder 0 is replaced by 8), so the staircase is 8 ticks too long. -/
theorem c1_staircase_total_at_8 : staircase_total 8 = 16 := by decide

-- ## C8

/-- C8 counterexample: the total length computed by `parse_file` is not
invariant under replacing the LCD by a larger common multiple of the
denominators: for a single `1/2` event the LCD is 2 and the total is 1, but
rescaling by the common multiple 4 gives total 2. -/
theorem c8_total_not_invariant :
    lcdOf [Duration.frac 1 2] = 2 ∧
      song_total [Duration.frac 1 2] = 1 ∧
      songLengthWith 4 [Duration.frac 1 2] = 2 ∧
      songLengthWith 4 [Duration.frac 1 2] ≠ song_total [Duration.frac 1 2] := by
  decide

/-- C8 amended: the total length computed by `parse_file` equals the sum over
events of each event's duration rescaled by the LCD (a bare duration `d`
contributes `d * LCD`, a fraction `a/b` contributes `a * (LCD / b)`), and
replacing the LCD by the common multiple `m * LCD` multiplies the total by
`m` (so the total scales with the chosen common multiple; the quotient
total / LCD is what is invariant, not the total itself). -/
theorem c8_total_scales (durs : List Duration) (m : Nat) :
    song_total durs = (durs.map (parse_duration (lcdOf durs))).sum ∧
      songLengthWith (m * lcdOf durs) durs = m * song_total durs := by
  constructor
  · exact songLengthWith_eq_sum _ durs
  · rw [songLengthWith_eq_sum, song_total, songLengthWith_eq_sum]
    have hmap : durs.map (parse_duration (m * lcdOf durs)) =
        durs.map (fun d => m * parse_duration (lcdOf durs) d) := by
      apply List.map_congr_left
      intro d hd
      exact parse_duration_mul (lcdOf durs) m d
        (fun n den hden => denom_dvd_lcdOf durs n den (hden ▸ hd))
    rw [hmap]
    have hsum : ∀ (l : List Duration) (f : Duration → Nat),
        (l.map fun d => m * f d).sum = m * (l.map f).sum := by
      intro l f
      induction l with
      | nil => simp
      | cons d rest ih => simp [ih, Nat.mul_add]
    exact hsum durs _

-- ## C6

theorem window_lo_mono (ti : Nat) {r r' : Nat} (h : r ≤ r') :
    window_lo ti r ≤ window_lo ti r' := by
  unfold window_lo
  have h2 : (0 : Int) < (ti : Int) + 2 := by positivity
  exact mul_le_mul_of_nonneg_left (by exact_mod_cast h) (le_of_lt h2)

theorem row_scan_some_spec (ti : Nat) (dr : Int) :
    ∀ (n a r : Nat), row_scan ti dr (List.range' a n) = some r →
      a ≤ r ∧ r < a + n ∧ in_window ti dr r ∧
        ∀ r', a ≤ r' → r' < r → ¬ in_window ti dr r' := by
  intro n
  induction n with
  | zero => intro a r h; simp [row_scan] at h
  | succ n ih =>
    intro a r h
    rw [List.range'_succ] at h
    by_cases h1 : dr < window_lo ti a
    · simp [row_scan, h1] at h
    · by_cases h2 : dr ≤ window_lo ti a + 7
      · simp [row_scan, h1, h2] at h
        subst h
        exact ⟨le_refl _, by omega, ⟨not_lt.mp h1, h2⟩, fun r' hle hlt => absurd hle (by omega)⟩
      · simp only [row_scan, if_neg h1, if_neg h2] at h
        obtain ⟨ha, hb, hw, hmin⟩ := ih (a + 1) r h
        refine ⟨by omega, by omega, hw, fun r' hle hlt => ?_⟩
        rcases Nat.eq_or_lt_of_le hle with heq | hgt
        · subst heq; exact fun hw' => h2 hw'.2
        · exact hmin r' hgt hlt

theorem row_scan_none_spec (ti : Nat) (dr : Int) :
    ∀ (n a : Nat), row_scan ti dr (List.range' a n) = none ↔
      ∀ r, a ≤ r → r < a + n → ¬ in_window ti dr r := by
  intro n
  induction n with
  | zero => intro a; simp [row_scan]; omega
  | succ n ih =>
    intro a
    rw [List.range'_succ]
    by_cases h1 : dr < window_lo ti a
    · simp only [row_scan, if_pos h1]
      constructor
      · intro _ r hle _ hw
        exact absurd (lt_of_lt_of_le h1 (window_lo_mono ti hle)) (not_lt.mpr hw.1)
      · intro _; trivial
    · by_cases h2 : dr ≤ window_lo ti a + 7
      · simp only [row_scan, if_neg h1, if_pos h2]
        constructor
        · intro h; cases h
        · intro hall
          exact absurd ⟨not_lt.mp h1, h2⟩ (hall a (le_refl _) (by omega))
      · simp only [row_scan, if_neg h1, if_neg h2]
        rw [ih (a + 1)]
        constructor
        · intro hall r hle hlt
          rcases Nat.eq_or_lt_of_le hle with heq | hgt
          · subst heq; exact fun hw' => h2 hw'.2
          · exact hall r hgt (by omega)
        · intro hall r hle hlt
          exact hall r (by omega) (by omega)

/-- C6: `gen_engine`'s row-selection loop selects the first row index `r` in
`[1, rows)` whose delay window `[(tick_interval+2)*r, (tick_interval+2)*r + 7]`
contains the remaining delay budget
`tick_interval * (rows/2 - 1) - 5`, and raises `TorchTowerException`
(modelled by `none`) exactly when no row index in `[1, rows)` has a window
containing the budget. -/
theorem c6_row_select_spec (ti rows : Nat) :
    (∀ r, row_select ti rows = some r →
        1 ≤ r ∧ r < rows ∧ in_window ti (delay_remaining_init ti rows) r ∧
          ∀ r', 1 ≤ r' → r' < r → ¬ in_window ti (delay_remaining_init ti rows) r') ∧
      (row_select ti rows = none ↔
        ∀ r, 1 ≤ r → r < rows → ¬ in_window ti (delay_remaining_init ti rows) r) := by
  constructor
  · intro r h
    obtain ⟨ha, hb, hw, hmin⟩ := row_scan_some_spec ti _ (rows - 1) 1 r h
    exact ⟨ha, by omega, hw, hmin⟩
  · unfold row_select
    rw [row_scan_none_spec ti _ (rows - 1) 1]
    constructor
    · intro hall r h1 h2; exact hall r h1 (by omega)
    · intro hall r h1 h2; exact hall r h1 (by omega)

/-- C6 witness: at `tick_interval = 10`, `rows = 6` the budget is 15 and row 1
(window `[12, 19]`) is selected. -/
theorem c6_row_select_spec_w :
    row_select 10 6 = some 1 ∧ in_window 10 (delay_remaining_init 10 6) 1 :=
  ⟨by decide, ((c6_row_select_spec 10 6).1 1 (by decide)).2.2.1⟩

-- ## Lemmas about `gen_notes`

theorem foldr_max_init (l : List Int) (u v : Int) :
    l.foldr max (max u v) = max v (l.foldr max u) := by
  induction l with
  | nil => exact max_comm u v
  | cons a l ih =>
    simp only [List.foldr_cons, ih]
    rw [max_left_comm]

theorem foldr_max_comm (l1 l2 : List Int) (A : Int) :
    l2.foldr max (l1.foldr max A) = l1.foldr max (l2.foldr max A) := by
  induction l2 with
  | nil => rfl
  | cons a l2 ih =>
    simp only [List.foldr_cons, ih]
    rw [max_comm a (l2.foldr max A), foldr_max_init]

theorem place_chord_spec (x y z : Int) (dm : Nat) (yb zb : Int) (prev : List Nat) :
    ∀ (notes : List (Instrument × Nat)) (acc c : ChordAcc),
      place_chord x y z dm yb zb prev acc notes = .ok c →
      ∃ L : List Ent,
        c.st.ents = acc.st.ents ++ L ∧
          L.length = notes.length ∧
          (∀ e ∈ L, e.y = y + yb ∧ e.z = z + zb) ∧
          ((c.depth : Int) = (L.map (fun e => e.x - x + 1)).foldr max (acc.depth : Int)) := by
  intro notes
  induction notes with
  | nil =>
    intro acc c h
    simp only [place_chord, Except.ok.injEq] at h
    subst h
    exact ⟨[], by simp, rfl, by simp, by simp⟩
  | cons note rest ih =>
    intro acc c h
    simp only [place_chord] at h
    cases hfs : find_slot prev dm acc.attempt with
    | error e => rw [hfs] at h; cases h
    | ok a =>
      rw [hfs] at h
      obtain ⟨L, hents, hlen, hyz, hdep⟩ := ih _ c h
      refine ⟨⟨x + (a : Int), y + yb, z + zb, note.2⟩ :: L, ?_, by simpa using hlen, ?_, ?_⟩
      · rw [hents]
        simp [place_note_block]
      · intro e he
        rcases List.mem_cons.mp he with rfl | he2
        · exact ⟨rfl, rfl⟩
        · exact hyz e he2
      · rw [hdep]
        simp only [List.map_cons, List.foldr_cons]
        have hcast : (((max acc.depth (a + 1) : Nat)) : Int) =
            max (acc.depth : Int) ((a : Int) + 1) := by
          rw [Nat.cast_max]; push_cast; rfl
        rw [hcast, foldr_max_init]
        have : x + (a : Int) - x + 1 = (a : Int) + 1 := by ring
        rw [this]

theorem gen_notes_event_spec (x y z : Int) (rows dm lcd : Nat) (acc acc1 : NotesAcc)
    (ev : List (Instrument × Nat) × Duration)
    (h : gen_notes_event x y z rows dm lcd acc ev = .ok acc1) :
    ∃ L : List Ent,
      acc1.st.ents = acc.st.ents ++ L ∧
        L.map (fun e => (e.y, e.z)) = ev.1.map (fun _ => cellOf rows y z acc.i) ∧
        ((acc1.depth : Int) = (L.map (fun e => e.x - x + 1)).foldr max (acc.depth : Int)) ∧
        acc1.i = acc.i + parse_duration lcd ev.2 := by
  simp only [gen_notes_event] at h
  cases hpc : place_chord x y z dm (2 * ((rows : Int) - ((acc.i % rows : Nat) : Int)) - 1)
      (((acc.i / rows : Nat) : Int) * 2 + 1)
      (if acc.i % rows = 0 then [] else acc.prev) ⟨acc.st, [], 0, acc.depth⟩ ev.1 with
  | error e => rw [hpc] at h; cases h
  | ok c =>
    rw [hpc] at h
    obtain ⟨L, hents, hlen, hyz, hdep⟩ := place_chord_spec _ _ _ _ _ _ _ _ _ _ hpc
    cases h
    refine ⟨L, hents, ?_, hdep, rfl⟩
    have hrep : L.map (fun e => (e.y, e.z)) =
        List.replicate ev.1.length (cellOf rows y z acc.i) := by
      rw [List.eq_replicate_iff]
      refine ⟨by simpa using hlen, ?_⟩
      intro b hb
      obtain ⟨e, he, rfl⟩ := List.mem_map.mp hb
      obtain ⟨h1, h2⟩ := hyz e he
      rw [h1, h2]
      rfl
    rw [hrep]
    exact (List.map_const' ev.1 (cellOf rows y z acc.i)).symm

theorem gen_notes_go_spec (x y z : Int) (rows dm lcd : Nat) :
    ∀ (evs : List (List (Instrument × Nat) × Duration)) (acc acc' : NotesAcc),
      gen_notes_go x y z rows dm lcd acc evs = .ok acc' →
      ∃ L : List Ent,
        acc'.st.ents = acc.st.ents ++ L ∧
          L.map (fun e => (e.y, e.z)) =
            (eventOffsets lcd acc.i evs).flatMap
              (fun p => p.2.1.map (fun _ => cellOf rows y z p.1)) ∧
          ((acc'.depth : Int) = (L.map (fun e => e.x - x + 1)).foldr max (acc.depth : Int)) := by
  intro evs
  induction evs with
  | nil =>
    intro acc acc' h
    simp only [gen_notes_go, Except.ok.injEq] at h
    subst h
    exact ⟨[], by simp, by simp [eventOffsets], by simp⟩
  | cons ev rest ih =>
    intro acc acc' h
    simp only [gen_notes_go] at h
    cases hev : gen_notes_event x y z rows dm lcd acc ev with
    | error e => rw [hev] at h; cases h
    | ok acc1 =>
      rw [hev] at h
      obtain ⟨L1, hents1, hyz1, hdep1, hi1⟩ := gen_notes_event_spec _ _ _ _ _ _ _ _ _ hev
      obtain ⟨L2, hents2, hyz2, hdep2⟩ := ih acc1 acc' h
      refine ⟨L1 ++ L2, ?_, ?_, ?_⟩
      · rw [hents2, hents1, List.append_assoc]
      · simp only [eventOffsets, List.flatMap_cons, List.map_append, hyz1]
        rw [hyz2, hi1]
      · rw [hdep2, hdep1, List.map_append, List.foldr_append, foldr_max_comm]

-- ## C2

/-- C2: the polyphony capacity is not enforced outside the collision scan.
With `depth_max = 1` and an empty carried-over active set, a chord of two
(non-air) bell notes is placed at slots 0 and 1 — the second outside
`[0, depth_max)` — and `gen_notes` returns normally with `depth_reached = 2`
instead of raising `PolyphonyException`, because the
`if attempt >= depth_max` check sits inside the `while attempt in
prev_allocs` loop and is never reached when the active set is empty. -/
theorem c2_capacity_not_enforced :
    genOk (gen_notes emptyState 0 0 0 1 1 1 c2song) = true ∧
      depthOf (gen_notes emptyState 0 0 0 1 1 1 c2song) = 2 ∧
      (entsOf (gen_notes emptyState 0 0 0 1 1 1 c2song)).map Ent.x = [0, 1] := by
  decide

-- ## C7

/-- C7 counterexample: with `rows = 2` and the two-event song `c7song` whose
first event lasts 2 rescaled units, the second event is placed in the cell
with `(y, z) = (3, 3)` (row 0 of column 1, because the cumulative counter
advances by the duration), not at `(y, z) = (1, 1)` (row 1 of column 0) as
the claim's `row = n mod rows, column = n div rows` layout predicts for the
event of index `n = 1`. -/
theorem c7_not_row_major :
    (entsOf (gen_notes emptyState 0 0 0 2 1 21 c7song)).map (fun e => (e.y, e.z)) =
        [(3, 1), (3, 3)] ∧
      (entsOf (gen_notes emptyState 0 0 0 2 1 21 c7song)).map (fun e => (e.y, e.z)) ≠
        [(3, 1), (1, 1)] := by
  decide

/-- C7 amended: `gen_notes` lays an event out in the cell determined by the
cumulative rescaled duration `t` of the events before it: `row = t mod rows`
and `column = t div rows` (so cells are skipped when durations exceed one
unit), and the active allocation set is ignored (reset to empty) exactly for
events that land at row index 0. -/
theorem c7_cells_by_cumulative_offset (st : NBState) (x y z : Int)
    (rows cols dm : Nat) (song : SongInfo)
    (hok : genOk (gen_notes st x y z rows cols dm song) = true) :
    ((entsOf (gen_notes st x y z rows cols dm song)).drop st.ents.length).map
        (fun e => (e.y, e.z)) =
      (eventOffsets song.lcd 0 song.notes).flatMap
        (fun p => p.2.1.map (fun _ => cellOf rows y z p.1)) ∧
      ∀ (acc : NotesAcc) (ev : List (Instrument × Nat) × Duration),
        acc.i % rows = 0 →
          gen_notes_event x y z rows dm song.lcd acc ev =
            gen_notes_event x y z rows dm song.lcd ⟨acc.st, [], acc.depth, acc.i⟩ ev := by
  constructor
  · cases hg : gen_notes_go x y z rows dm song.lcd ⟨st, [], 0, 0⟩ song.notes with
    | error e => simp [gen_notes, genOk, hg] at hok
    | ok acc' =>
      obtain ⟨L, hents, hyz, _⟩ := gen_notes_go_spec x y z rows dm song.lcd song.notes _ _ hg
      have hdrop : (entsOf (gen_notes st x y z rows cols dm song)).drop st.ents.length = L := by
        simp only [gen_notes, hg, entsOf]
        rw [hents]
        exact List.drop_left _ _
      rw [hdrop, hyz]
  · intro acc ev hrow
    simp only [gen_notes_event, hrow]
    simp

/-- C7 witness: the amended cell layout evaluated on `c7song`. -/
theorem c7_cells_by_cumulative_offset_w :
    ((entsOf (gen_notes emptyState 0 0 0 2 1 21 c7song)).drop emptyState.ents.length).map
        (fun e => (e.y, e.z)) =
      (eventOffsets c7song.lcd 0 c7song.notes).flatMap
        (fun p => p.2.1.map (fun _ => cellOf 2 0 0 p.1)) :=
  (c7_cells_by_cumulative_offset emptyState 0 0 0 2 1 21 c7song (by rfl)).1

-- ## C10

/-- C10: on a normal return, `depth_reached` equals the maximum over all
placed notes (air-backed instruments included, since every note appends a
block entity) of `slot + 1`, where `slot = e.x - x` is recovered from the
appended block-entity positions, with 0 for a song with no events; and a
song with no events returns the untouched state with depth 0. -/
theorem c10_depth_reached (st : NBState) (x y z : Int) (rows cols dm : Nat)
    (song : SongInfo)
    (hok : genOk (gen_notes st x y z rows cols dm song) = true) :
    ((depthOf (gen_notes st x y z rows cols dm song) : Int) =
        (((entsOf (gen_notes st x y z rows cols dm song)).drop st.ents.length).map
            (fun e => e.x - x + 1)).foldr max 0) ∧
      (song.notes = [] → gen_notes st x y z rows cols dm song = .ok (st, 0)) := by
  constructor
  · cases hg : gen_notes_go x y z rows dm song.lcd ⟨st, [], 0, 0⟩ song.notes with
    | error e => simp [gen_notes, genOk, hg] at hok
    | ok acc' =>
      obtain ⟨L, hents, _, hdep⟩ := gen_notes_go_spec x y z rows dm song.lcd song.notes _ _ hg
      have hdrop : (entsOf (gen_notes st x y z rows cols dm song)).drop st.ents.length = L := by
        simp only [gen_notes, hg, entsOf]
        rw [hents]
        exact List.drop_left _ _
      have hdv : depthOf (gen_notes st x y z rows cols dm song) = acc'.depth := by
        simp [gen_notes, hg, depthOf]
      rw [hdrop, hdv, hdep]
      norm_num
  · intro hnil
    simp [gen_notes, hnil, gen_notes_go]

/-- C10 witness: one chord of an air-backed harp note at slot 0 and a bell
note at slot 1; the returned depth is 2 = max(slot + 1). -/
theorem c10_depth_reached_w :
    ((depthOf (gen_notes emptyState 0 0 0 1 1 5 c10song) : Int) =
        (((entsOf (gen_notes emptyState 0 0 0 1 1 5 c10song)).drop
              emptyState.ents.length).map
            (fun e => e.x - 0 + 1)).foldr max 0) ∧
      (c10song.notes = [] → gen_notes emptyState 0 0 0 1 1 5 c10song = .ok (emptyState, 0)) :=
  c10_depth_reached emptyState 0 0 0 1 1 5 c10song (by rfl)

-- ## Lemmas about `copy_area` and `stack_area`

theorem setCell_at (c : Canvas) (Y Z X : Int) (v : Cell) : setCell c Y Z X v Y Z X = v := by
  simp [setCell]

theorem setCell_ne (c : Canvas) (Y Z X : Int) (v : Cell) (y z x : Int)
    (h : ¬(y = Y ∧ z = Z ∧ x = X)) : setCell c Y Z X v y z x = c y z x := by
  simp [setCell, h]

theorem foldl_flatMap {α β γ : Type} (f : β → List γ) (g : α → γ → α) :
    ∀ (l : List β) (a : α),
      (l.flatMap f).foldl g a = l.foldl (fun acc b => (f b).foldl g acc) a := by
  intro l
  induction l with
  | nil => intro a; rfl
  | cons b rest ih =>
    intro a
    rw [List.flatMap_cons, List.foldl_append, List.foldl_cons, ih]

theorem copy_area_eq_runCopy (sf : Canvas)
    (sxl syl szl sxh syh szh dxl dyl dzl dxh dyh dzh : Int) :
    copy_area sf sxl syl szl sxh syh szh dxl dyl dzl dxh dyh dzh =
      runCopy
        (copyOps sxl syl szl dxl dyl dzl
          (min (extent sxl sxh) (extent dxl dxh))
          (min (extent syl syh) (extent dyl dyh))
          (min (extent szl szh) (extent dzl dzh))) sf := by
  simp only [copy_area, zipRange, runCopy, copyOps, foldl_flatMap, List.foldl_map]

theorem runCopy_spec (sf : Canvas) :
    ∀ (ops : List CopyOp) (c : Canvas),
      (∀ op ∈ ops, c op.1.1 op.1.2.1 op.1.2.2 = sf op.1.1 op.1.2.1 op.1.2.2) →
      (∀ op ∈ ops, ∀ op' ∈ ops, op.2 ≠ op'.1) →
      ((ops.map Prod.snd).Nodup) →
      (∀ op ∈ ops, runCopy ops c op.2.1 op.2.2.1 op.2.2.2 = sf op.1.1 op.1.2.1 op.1.2.2) ∧
        (∀ y z x : Int, (∀ op ∈ ops, op.2 ≠ (y, z, x)) → runCopy ops c y z x = c y z x) := by
  intro ops
  induction ops with
  | nil =>
    intro c _ _ _
    exact ⟨fun op hop => absurd hop (List.not_mem_nil op), fun y z x _ => rfl⟩
  | cons op0 rest ih =>
    intro c hsrc hd hnd
    have hset : ∀ y z x : Int, op0.2 ≠ (y, z, x) →
        setCell c op0.2.1 op0.2.2.1 op0.2.2.2 (c op0.1.1 op0.1.2.1 op0.1.2.2) y z x = c y z x := by
      intro y z x hne
      apply setCell_ne
      intro hcontra
      obtain ⟨h1, h2, h3⟩ := hcontra
      apply hne
      subst h1; subst h2; subst h3
      rfl
    have hsrc1 : ∀ op ∈ rest,
        setCell c op0.2.1 op0.2.2.1 op0.2.2.2 (c op0.1.1 op0.1.2.1 op0.1.2.2)
            op.1.1 op.1.2.1 op.1.2.2 =
          sf op.1.1 op.1.2.1 op.1.2.2 := by
      intro op hop
      have h1 : op0.2 ≠ op.1 :=
        hd op0 (List.mem_cons_self op0 rest) op (List.mem_cons_of_mem op0 hop)
      rw [hset op.1.1 op.1.2.1 op.1.2.2 (by simpa using h1)]
      exact hsrc op (List.mem_cons_of_mem op0 hop)
    have hd1 : ∀ op ∈ rest, ∀ op' ∈ rest, op.2 ≠ op'.1 := fun op hop op' hop' =>
      hd op (List.mem_cons_of_mem op0 hop) op' (List.mem_cons_of_mem op0 hop')
    have hnd1 : (rest.map Prod.snd).Nodup := (List.nodup_cons.mp hnd).2
    obtain ⟨ih1, ih2⟩ := ih _ hsrc1 hd1 hnd1
    have hrun : runCopy (op0 :: rest) c =
        runCopy rest (setCell c op0.2.1 op0.2.2.1 op0.2.2.2 (c op0.1.1 op0.1.2.1 op0.1.2.2)) := rfl
    constructor
    · intro op hop
      rcases List.mem_cons.mp hop with rfl | hop2
      · have hnotin : ∀ op' ∈ rest, op'.2 ≠ (op.2.1, op.2.2.1, op.2.2.2) := by
          intro op' hop' hcontra
          have : op.2 = op'.2 := by
            rw [hcontra]
          exact (List.nodup_cons.mp hnd).1 (this ▸ List.mem_map_of_mem Prod.snd hop')
        rw [hrun, ih2 _ _ _ hnotin]
        have := hsrc op (List.mem_cons_self op rest)
        rw [← this]
        apply setCell_at
      · rw [hrun]
        exact ih1 op hop2
    · intro y z x hall
      rw [hrun, ih2 y z x (fun op hop => hall op (List.mem_cons_of_mem op0 hop))]
      exact hset y z x (hall op0 (List.mem_cons_self op0 rest))

theorem copyOps_mem (sxl syl szl dxl dyl dzl : Int) (nx ny nz : Nat) (op : CopyOp) :
    op ∈ copyOps sxl syl szl dxl dyl dzl nx ny nz ↔
      ∃ i j k : Nat, i < nx ∧ j < ny ∧ k < nz ∧
        op = ((syl + (j : Int), szl + (k : Int), sxl + (i : Int)),
          (dyl + (j : Int), dzl + (k : Int), dxl + (i : Int))) := by
  constructor
  · intro h
    obtain ⟨i, hi, h2⟩ := List.mem_flatMap.mp h
    obtain ⟨j, hj, h3⟩ := List.mem_flatMap.mp h2
    obtain ⟨k, hk, heq⟩ := List.mem_map.mp h3
    exact ⟨i, j, k, List.mem_range.mp hi, List.mem_range.mp hj, List.mem_range.mp hk, heq.symm⟩
  · rintro ⟨i, j, k, hi, hj, hk, rfl⟩
    exact List.mem_flatMap.mpr ⟨i, List.mem_range.mpr hi,
      List.mem_flatMap.mpr ⟨j, List.mem_range.mpr hj,
        List.mem_map.mpr ⟨k, List.mem_range.mpr hk, rfl⟩⟩⟩

theorem copyOps_dsts_nodup (sxl syl szl dxl dyl dzl : Int) (nx ny nz : Nat) :
    ((copyOps sxl syl szl dxl dyl dzl nx ny nz).map Prod.snd).Nodup := by
  simp only [copyOps, List.map_flatMap, List.map_map]
  rw [List.nodup_flatMap]
  constructor
  · intro i _
    rw [List.nodup_flatMap]
    constructor
    · intro j _
      refine List.Nodup.map ?_ (List.nodup_range nz)
      intro k k' hkk
      simp only [Function.comp, Prod.mk.injEq] at hkk
      omega
    · refine (List.pairwise_lt_range ny).imp ?_
      intro j j' hjj
      intro v hv hv'
      simp only [List.mem_map, List.mem_range, Function.comp] at hv hv'
      obtain ⟨k, _, rfl⟩ := hv
      obtain ⟨k', _, hv'eq⟩ := hv'
      simp only [Prod.mk.injEq] at hv'eq
      omega
  · refine (List.pairwise_lt_range nx).imp ?_
    intro i i' hii
    intro v hv hv'
    simp only [List.mem_flatMap, List.mem_map, List.mem_range, Function.comp] at hv hv'
    obtain ⟨j, _, k, _, rfl⟩ := hv
    obtain ⟨j', _, k', _, hv'eq⟩ := hv'
    simp only [Prod.mk.injEq] at hv'eq
    omega

-- ## C4

/-- C4 counterexample: a call with mismatched extents (source `x` extent 2,
destination `x` extent 1) is not rejected: the overlapping prefix is copied
(the destination cell at `x = 10` receives the source cell at `x = 0`) and
the copy is silently truncated (nothing reaches `x = 11`). -/
theorem c4_truncates_instead_of_rejecting :
    copy_area coordCanvas 0 0 0 1 0 0 10 0 0 10 0 0 0 0 10 = ((0 : Nat), (0 : Nat)) ∧
      coordCanvas 0 0 10 = ((10 : Nat), (0 : Nat)) ∧
      copy_area coordCanvas 0 0 0 1 0 0 10 0 0 10 0 0 0 0 11 = ((11 : Nat), (0 : Nat)) := by
  decide

/-- C4 amended: `copy_area` silently truncates mismatched extents to the
per-axis minimum `nx, ny, nz` of the source and destination extents rather
than rejecting the call; when the (truncated) destination box is disjoint
from the (truncated) source box — in particular for any equal-extent,
non-overlapping copy — every destination cell receives the `(block, state)`
pair of its corresponding source coordinate and every cell outside the
destination box is unchanged. -/
theorem c4_truncated_elementwise_copy (sf : Canvas)
    (sxl syl szl sxh syh szh dxl dyl dzl dxh dyh dzh : Int) (nx ny nz : Nat)
    (hnx : nx = min (extent sxl sxh) (extent dxl dxh))
    (hny : ny = min (extent syl syh) (extent dyl dyh))
    (hnz : nz = min (extent szl szh) (extent dzl dzh))
    (hdisj : ∀ i < nx, ∀ j < ny, ∀ k < nz,
      ¬ inBox3 syl szl sxl ny nz nx (dyl + (j : Int)) (dzl + (k : Int)) (dxl + (i : Int))) :
    (∀ i j k : Nat, i < nx → j < ny → k < nz →
        copy_area sf sxl syl szl sxh syh szh dxl dyl dzl dxh dyh dzh
            (dyl + (j : Int)) (dzl + (k : Int)) (dxl + (i : Int)) =
          sf (syl + (j : Int)) (szl + (k : Int)) (sxl + (i : Int))) ∧
      (∀ y z x : Int, ¬ inBox3 dyl dzl dxl ny nz nx y z x →
        copy_area sf sxl syl szl sxh syh szh dxl dyl dzl dxh dyh dzh y z x = sf y z x) := by
  have hco : copy_area sf sxl syl szl sxh syh szh dxl dyl dzl dxh dyh dzh =
      runCopy (copyOps sxl syl szl dxl dyl dzl nx ny nz) sf := by
    rw [copy_area_eq_runCopy, hnx, hny, hnz]
  have hd : ∀ op ∈ copyOps sxl syl szl dxl dyl dzl nx ny nz,
      ∀ op' ∈ copyOps sxl syl szl dxl dyl dzl nx ny nz, op.2 ≠ op'.1 := by
    intro op hop op' hop'
    obtain ⟨i, j, k, hi, hj, hk, rfl⟩ := (copyOps_mem _ _ _ _ _ _ _ _ _ op).mp hop
    obtain ⟨i', j', k', hi', hj', hk', rfl⟩ := (copyOps_mem _ _ _ _ _ _ _ _ _ op').mp hop'
    intro hcontra
    apply hdisj i hi j hj k hk
    simp only [Prod.mk.injEq] at hcontra
    obtain ⟨h1, h2, h3⟩ := hcontra
    rw [h1, h2, h3]
    refine ⟨by omega, by push_cast; omega, by omega, by push_cast; omega, by omega, by push_cast; omega⟩
  obtain ⟨hs1, hs2⟩ := runCopy_spec sf (copyOps sxl syl szl dxl dyl dzl nx ny nz) sf
    (fun _ _ => rfl) hd (copyOps_dsts_nodup _ _ _ _ _ _ _ _ _)
  constructor
  · intro i j k hi hj hk
    rw [hco]
    exact hs1 _ ((copyOps_mem _ _ _ _ _ _ _ _ _ _).mpr ⟨i, j, k, hi, hj, hk, rfl⟩)
  · intro y z x hout
    rw [hco]
    apply hs2
    intro op hop hcontra
    obtain ⟨i, j, k, hi, hj, hk, rfl⟩ := (copyOps_mem _ _ _ _ _ _ _ _ _ op).mp hop
    apply hout
    simp only [Prod.mk.injEq] at hcontra
    obtain ⟨h1, h2, h3⟩ := hcontra
    rw [← h1, ← h2, ← h3]
    refine ⟨by omega, by push_cast; omega, by omega, by push_cast; omega, by omega, by push_cast; omega⟩

/-- C4 witness: an equal-extent (2 x 1 x 1), disjoint copy from `x in [0, 1]`
to `x in [10, 11]` on the coordinate canvas. -/
theorem c4_truncated_elementwise_copy_w :
    (∀ i j k : Nat, i < 2 → j < 1 → k < 1 →
        copy_area coordCanvas 0 0 0 1 0 0 10 0 0 11 0 0
            ((0 : Int) + (j : Int)) ((0 : Int) + (k : Int)) ((10 : Int) + (i : Int)) =
          coordCanvas ((0 : Int) + (j : Int)) ((0 : Int) + (k : Int)) ((0 : Int) + (i : Int))) ∧
      (∀ y z x : Int, ¬ inBox3 0 0 10 1 1 2 y z x →
        copy_area coordCanvas 0 0 0 1 0 0 10 0 0 11 0 0 y z x = coordCanvas y z x) :=
  c4_truncated_elementwise_copy coordCanvas 0 0 0 1 0 0 10 0 0 11 0 0 2 1 1
    (by decide) (by decide) (by decide) (by decide)

-- ## C5

/-- C5: the southward replication is offset by `depth = x_hi + x_lo + 1`, not
by the region's depth extent `x_hi - x_lo + 1`. For the region `x in [1, 2]`
(extent 2) with one south copy, the copy lands at `x in [5, 6]` (offset 4)
while the cell at `x = 3` — where the claimed extent-sized offset would put
it — is untouched. -/
theorem c5_south_depth_bug :
    stack_area coordCanvas 1 0 0 2 0 0 0 0 1 0 0 5 = ((1 : Nat), (0 : Nat)) ∧
      stack_area coordCanvas 1 0 0 2 0 0 0 0 1 0 0 6 = ((2 : Nat), (0 : Nat)) ∧
      stack_area coordCanvas 1 0 0 2 0 0 0 0 1 0 0 3 = ((3 : Nat), (0 : Nat)) := by
  decide

-- ## Lemmas about the rotation cycle positions

theorem get?_set_self' {α : Type} :
    ∀ (l : List α) (n : Nat) (v : α), n < l.length → (l.set n v).get? n = some v := by
  intro l
  induction l with
  | nil => intro n v h; simp at h
  | cons a l ih =>
    intro n v h
    cases n with
    | zero => rfl
    | succ m => exact ih m v (by simpa using h)

theorem get?_set_ne' {α : Type} :
    ∀ (l : List α) (n m : Nat) (v : α), n ≠ m → (l.set n v).get? m = l.get? m := by
  intro l
  induction l with
  | nil => intro n m v _; rfl
  | cons a l ih =>
    intro n m v h
    cases n with
    | zero =>
      cases m with
      | zero => exact absurd rfl h
      | succ m' => rfl
    | succ n' =>
      cases m with
      | zero => rfl
      | succ m' => exact ih n' m' v (by omega)

theorem cycStep_eq (H s j : Nat) (hj : j < H) (hs : s ≤ H) :
    cycStep H s j = (j + s) % H := by
  unfold cycStep
  by_cases h : H ≤ j + s
  · rw [if_pos h, Nat.mod_eq_sub_mod h, Nat.mod_eq_of_lt (by omega)]
  · rw [if_neg h, Nat.mod_eq_of_lt (by omega)]

theorem cycPos_lt (H s i u : Nat) (hH : 1 ≤ H) : cycPos H s i u < H :=
  Nat.mod_lt _ (by omega)

theorem cycPos_succ (H s i u : Nat) :
    (cycPos H s i u + s) % H = cycPos H s i (u + 1) := by
  unfold cycPos
  rw [Nat.mod_add_mod]
  congr 1
  ring

theorem cycPos_zero (H s i : Nat) (hi : i < H) : cycPos H s i 0 = i := by
  unfold cycPos
  simp [Nat.mod_eq_of_lt hi]

theorem dvd_mul_div_gcd (H s : Nat) : H ∣ s * (H / Nat.gcd s H) := by
  have hg1 : Nat.gcd s H ∣ s := Nat.gcd_dvd_left s H
  have hg2 : Nat.gcd s H ∣ H := Nat.gcd_dvd_right s H
  refine ⟨s / Nat.gcd s H, ?_⟩
  rw [← Nat.mul_div_assoc s hg2, ← Nat.mul_div_assoc H hg1, Nat.mul_comm H s]

theorem cycPos_modeq (H s : Nat) (hH : 1 ≤ H) (i u u' : Nat) :
    cycPos H s i u = cycPos H s i u' ↔ u ≡ u' [MOD H / Nat.gcd s H] := by
  constructor
  · intro h
    have h2 : i + u * s ≡ i + u' * s [MOD H] := h
    have h3 : u * s ≡ u' * s [MOD H] := Nat.ModEq.add_left_cancel' i h2
    have h4 : s * u ≡ s * u' [MOD H] := by
      rwa [Nat.mul_comm u s, Nat.mul_comm u' s] at h3
    have h5 := Nat.ModEq.cancel_left_div_gcd (by omega) h4
    rwa [Nat.gcd_comm] at h5
  · intro h
    have h2 : s * u ≡ s * u' [MOD s * (H / Nat.gcd s H)] := h.mul_left' s
    have h3 : s * u ≡ s * u' [MOD H] := h2.of_dvd (dvd_mul_div_gcd H s)
    have h4 : i + u * s ≡ i + u' * s [MOD H] := by
      have := h3.add_left i
      rwa [Nat.mul_comm s u, Nat.mul_comm s u'] at this
    exact h4

theorem cycPos_inj (H s : Nat) (hH : 1 ≤ H) (i : Nat) {u u' : Nat}
    (hu : u < H / Nat.gcd s H) (hu' : u' < H / Nat.gcd s H)
    (h : cycPos H s i u = cycPos H s i u') : u = u' := by
  have h2 := (cycPos_modeq H s hH i u u').mp h
  have h3 : u % (H / Nat.gcd s H) = u' % (H / Nat.gcd s H) := h2
  rwa [Nat.mod_eq_of_lt hu, Nat.mod_eq_of_lt hu'] at h3

theorem cycPos_closes (H s : Nat) (hH : 1 ≤ H) (i : Nat) (hi : i < H) (u : Nat) :
    cycPos H s i u = i ↔ (H / Nat.gcd s H) ∣ u := by
  have h0 : cycPos H s i 0 = i := cycPos_zero H s i hi
  constructor
  · intro h
    exact Nat.modEq_zero_iff_dvd.mp ((cycPos_modeq H s hH i u 0).mp (by rw [h0, h]))
  · intro h
    have h2 := (cycPos_modeq H s hH i u 0).mpr (Nat.modEq_zero_iff_dvd.mpr h)
    rw [h0] at h2
    exact h2

theorem cycPos_res (H s i u : Nat) :
    cycPos H s i u % Nat.gcd s H = i % Nat.gcd s H := by
  unfold cycPos
  rw [Nat.mod_mod_of_dvd _ (Nat.gcd_dvd_right s H)]
  have h : u * s = i + u * (s / Nat.gcd s H) * Nat.gcd s H - i := by
    rw [Nat.mul_assoc, Nat.div_mul_cancel (Nat.gcd_dvd_left s H)]
    omega
  have h2 : i + u * s = i + u * (s / Nat.gcd s H) * Nat.gcd s H := by
    rw [Nat.mul_assoc, Nat.div_mul_cancel (Nat.gcd_dvd_left s H)]
  rw [h2, Nat.add_mul_mod_self_right]

theorem gcd_le_of_pos (H s : Nat) (hH : 1 ≤ H) :
    0 < Nat.gcd s H ∧ Nat.gcd s H ≤ H ∧
      Nat.gcd s H * (H / Nat.gcd s H) = H ∧
      1 ≤ H / Nat.gcd s H ∧ H / Nat.gcd s H ≤ H := by
  have h1 : 0 < Nat.gcd s H := Nat.gcd_pos_of_pos_right s (by omega)
  have h2 : Nat.gcd s H ≤ H := Nat.le_of_dvd (by omega) (Nat.gcd_dvd_right s H)
  have h3 : Nat.gcd s H * (H / Nat.gcd s H) = H :=
    Nat.mul_div_cancel' (Nat.gcd_dvd_right s H)
  refine ⟨h1, h2, h3, ?_, Nat.div_le_self H _⟩
  exact Nat.div_pos h2 h1

theorem cycWalk_spec {α : Type} (H s : Nat) (hH : 1 ≤ H) (hs : s ≤ H)
    (a : List α) (ha : a.length = H) (i : Nat) (hig : i < Nat.gcd s H)
    (temp : α) (htemp : a.get? i = some temp) :
    ∀ (fuel t : Nat) (b : List α), b.length = H → t < H / Nat.gcd s H →
      H / Nat.gcd s H - t ≤ fuel →
      (∀ u, t < u → u < H / Nat.gcd s H →
        b.get? (cycPos H s i u) = a.get? (cycPos H s i u)) →
      ∃ b', cycWalk H s i temp (cycPos H s i t) b fuel = some b' ∧
        b'.length = H ∧
        (∀ u, t ≤ u → u < H / Nat.gcd s H →
          b'.get? (cycPos H s i u) = a.get? ((cycPos H s i u + s) % H)) ∧
        (∀ p : Nat, (∀ u, t ≤ u → u < H / Nat.gcd s H → cycPos H s i u ≠ p) →
          b'.get? p = b.get? p) := by
  intro fuel
  induction fuel with
  | zero =>
    intro t b hb ht hfuel hagree
    omega
  | succ fuel ih =>
    intro t b hb ht hfuel hagree
    obtain ⟨hg0, hgH, hgc, hc1, hcH⟩ := gcd_le_of_pos H s hH
    have hiH : i < H := lt_of_lt_of_le hig hgH
    have hposlt : cycPos H s i t < H := cycPos_lt H s i t hH
    have hk : cycStep H s (cycPos H s i t) = cycPos H s i (t + 1) := by
      rw [cycStep_eq H s _ hposlt hs, cycPos_succ]
    by_cases heq : cycPos H s i (t + 1) = i
    · have hdvd : (H / Nat.gcd s H) ∣ (t + 1) :=
        (cycPos_closes H s hH i hiH (t + 1)).mp heq
      have ht1 : t + 1 = H / Nat.gcd s H := by
        have := Nat.le_of_dvd (by omega) hdvd
        omega
      refine ⟨b.set (cycPos H s i t) temp, ?_, ?_, ?_, ?_⟩
      · simp only [cycWalk, hk, if_pos heq]
      · rw [List.length_set]; exact hb
      · intro u hu1 hu2
        have hut : u = t := by omega
        subst hut
        rw [get?_set_self' b _ temp (by omega), cycPos_succ, heq, htemp]
      · intro p hp
        exact get?_set_ne' b _ p temp (hp t (le_refl t) ht)
    · have ht1 : t + 1 < H / Nat.gcd s H := by
        rcases Nat.lt_or_ge (t + 1) (H / Nat.gcd s H) with h | h
        · exact h
        · exfalso
          apply heq
          have he : t + 1 = H / Nat.gcd s H := by omega
          rw [he]
          exact (cycPos_closes H s hH i hiH _).mpr ⟨1, by omega⟩
      have hp1H : cycPos H s i (t + 1) < H := cycPos_lt H s i (t + 1) hH
      have hv : a.get? (cycPos H s i (t + 1)) =
          some (a.get ⟨cycPos H s i (t + 1), by omega⟩) :=
        List.get?_eq_get (by omega)
      have hbv : b.get? (cycPos H s i (t + 1)) =
          some (a.get ⟨cycPos H s i (t + 1), by omega⟩) := by
        rw [hagree (t + 1) (by omega) ht1, hv]
      have hstep : cycWalk H s i temp (cycPos H s i t) b (fuel + 1) =
          cycWalk H s i temp (cycPos H s i (t + 1))
            (b.set (cycPos H s i t) (a.get ⟨cycPos H s i (t + 1), by omega⟩)) fuel := by
        simp only [cycWalk, hk, if_neg heq, hbv]
      have hagree1 : ∀ u, t + 1 < u → u < H / Nat.gcd s H →
          (b.set (cycPos H s i t) (a.get ⟨cycPos H s i (t + 1), by omega⟩)).get?
              (cycPos H s i u) =
            a.get? (cycPos H s i u) := by
        intro u hu1 hu2
        rw [get?_set_ne']
        · exact hagree u (by omega) hu2
        · intro hcontra
          have := cycPos_inj H s hH i ht hu2 hcontra
          omega
      obtain ⟨b', hw, hlen, hprop1, hprop2⟩ :=
        ih (t + 1) (b.set (cycPos H s i t) (a.get ⟨cycPos H s i (t + 1), by omega⟩))
          (by rw [List.length_set]; exact hb) ht1 (by omega) hagree1
      refine ⟨b', by rw [hstep]; exact hw, hlen, ?_, ?_⟩
      · intro u hu1 hu2
        rcases Nat.eq_or_lt_of_le hu1 with hut | hut
        · subst hut
          have hnotin : ∀ u', t + 1 ≤ u' → u' < H / Nat.gcd s H →
              cycPos H s i u' ≠ cycPos H s i t := by
            intro u' hu'1 hu'2 hcontra
            have := cycPos_inj H s hH i hu'2 hu2 hcontra
            omega
          rw [hprop2 _ hnotin, get?_set_self' b _ _ (by omega), cycPos_succ, hv]
        · exact hprop1 u (by omega) hu2
      · intro p hp
        rw [hprop2 p (fun u hu1 hu2 => hp u (by omega) hu2)]
        exact get?_set_ne' b _ p _ (hp t (le_refl t) ht)

theorem cycPos_ne_of_ne_cycle (H s i i' : Nat) (hi : i < Nat.gcd s H)
    (hi' : i' < Nat.gcd s H) (hne : i ≠ i') (u u' : Nat) :
    cycPos H s i u ≠ cycPos H s i' u' := by
  intro h
  have r1 := cycPos_res H s i u
  have r2 := cycPos_res H s i' u'
  rw [h] at r1
  have h2 : i % Nat.gcd s H = i' % Nat.gcd s H := by rw [← r1, r2]
  rw [Nat.mod_eq_of_lt hi, Nat.mod_eq_of_lt hi'] at h2
  exact hne h2

theorem cycOne_spec {α : Type} (H s : Nat) (hH : 1 ≤ H) (hs : s ≤ H)
    (a : List α) (ha : a.length = H) (i : Nat) (hig : i < Nat.gcd s H)
    (b : List α) (hb : b.length = H)
    (hagree : ∀ u, u < H / Nat.gcd s H →
      b.get? (cycPos H s i u) = a.get? (cycPos H s i u)) :
    ∃ b', cycOne H s b i = some b' ∧ b'.length = H ∧
      (∀ u, u < H / Nat.gcd s H →
        b'.get? (cycPos H s i u) = a.get? ((cycPos H s i u + s) % H)) ∧
      (∀ p : Nat, (∀ u, u < H / Nat.gcd s H → cycPos H s i u ≠ p) →
        b'.get? p = b.get? p) := by
  obtain ⟨hg0, hgH, hgc, hc1, hcH⟩ := gcd_le_of_pos H s hH
  have hiH : i < H := lt_of_lt_of_le hig hgH
  have htemp_a : a.get? i = some (a.get ⟨i, by omega⟩) := List.get?_eq_get (by omega)
  have htemp_b : b.get? i = some (a.get ⟨i, by omega⟩) := by
    have h0 := hagree 0 (by omega)
    rw [cycPos_zero H s i hiH] at h0
    rw [h0, htemp_a]
  obtain ⟨b', hw, hlen, h1, h2⟩ :=
    cycWalk_spec H s hH hs a ha i hig _ htemp_a (H + 1) 0 b hb (by omega) (by omega)
      (fun u _ hu2 => hagree u hu2)
  rw [cycPos_zero H s i hiH] at hw
  refine ⟨b', ?_, hlen, fun u hu => h1 u (by omega) hu,
    fun p hp => h2 p (fun u _ hu2 => hp u hu2)⟩
  unfold cycOne
  rw [htemp_b]
  exact hw

theorem cycle_cycles_spec {α : Type} (H s : Nat) (hH : 1 ≤ H) (hs : s ≤ H)
    (a : List α) (ha : a.length = H) :
    ∀ (m : Nat), m ≤ Nat.gcd s H →
      ∃ b, (List.range m).foldlM (fun acc i => cycOne H s acc i) a = some b ∧
        b.length = H ∧
        (∀ i u, i < m → u < H / Nat.gcd s H →
          b.get? (cycPos H s i u) = a.get? ((cycPos H s i u + s) % H)) ∧
        (∀ p : Nat, (∀ i u, i < m → u < H / Nat.gcd s H → cycPos H s i u ≠ p) →
          b.get? p = a.get? p) := by
  intro m
  induction m with
  | zero =>
    intro _
    exact ⟨a, rfl, ha, fun i u hi _ => absurd hi (Nat.not_lt_zero i), fun p _ => rfl⟩
  | succ m ih =>
    intro hm
    obtain ⟨b, hfold, hlen, h1, h2⟩ := ih (by omega)
    have hagree : ∀ u, u < H / Nat.gcd s H →
        b.get? (cycPos H s m u) = a.get? (cycPos H s m u) := by
      intro u hu
      apply h2
      intro i' u' hi' _ hcontra
      exact cycPos_ne_of_ne_cycle H s i' m (by omega) (by omega) (by omega) u' u hcontra
    obtain ⟨b', hone, hlen', h1', h2'⟩ :=
      cycOne_spec H s hH hs a ha m (by omega) b hlen hagree
    refine ⟨b', ?_, hlen', ?_, ?_⟩
    · rw [List.range_succ, List.foldlM_append, hfold]
      simpa using hone
    · intro i u hi hu
      rcases Nat.lt_or_ge i m with him | him
      · rw [h2' _ (fun u' hu' =>
          cycPos_ne_of_ne_cycle H s m i (by omega) (by omega) (by omega) u' u)]
        exact h1 i u him hu
      · have : i = m := by omega
        subst this
        exact h1' u hu
    · intro p hp
      rw [h2' p (fun u hu => hp m u (by omega) hu)]
      exact h2 p (fun i u hi hu => hp i u (by omega) hu)

theorem cycPos_cover (H s : Nat) (hH : 1 ≤ H) (p : Nat) (hp : p < H) :
    ∃ i u, i < Nat.gcd s H ∧ u < H / Nat.gcd s H ∧ cycPos H s i u = p := by
  obtain ⟨hg0, hgH, hgc, hc1, hcH⟩ := gcd_le_of_pos H s hH
  have hinj : Function.Injective
      (fun q : Fin (Nat.gcd s H) × Fin (H / Nat.gcd s H) =>
        (⟨cycPos H s q.1 q.2, cycPos_lt H s q.1 q.2 hH⟩ : Fin H)) := by
    intro q q' h
    have h2 : cycPos H s q.1 q.2 = cycPos H s q'.1 q'.2 := congrArg Fin.val h
    by_cases hqq : (q.1 : Nat) = (q'.1 : Nat)
    · have hq1 : q.1 = q'.1 := Fin.ext hqq
      rw [← hq1] at h2
      have hu := cycPos_inj H s hH q.1 q.2.isLt q'.2.isLt h2
      exact Prod.ext hq1 (Fin.ext hu)
    · exact absurd h2 (cycPos_ne_of_ne_cycle H s q.1 q'.1 q.1.isLt q'.1.isLt hqq q.2 q'.2)
  have hcard : Fintype.card (Fin (Nat.gcd s H) × Fin (H / Nat.gcd s H)) =
      Fintype.card (Fin H) := by
    simp only [Fintype.card_prod, Fintype.card_fin]
    omega
  have hbij := (Fintype.bijective_iff_injective_and_card _).mpr ⟨hinj, hcard⟩
  obtain ⟨⟨i, u⟩, he⟩ := hbij.2 ⟨p, hp⟩
  exact ⟨i, u, i.isLt, u.isLt, congrArg Fin.val he⟩

theorem cycle_column_eq_rotate {α : Type} (a : List α) (s : Nat) (hs : s ≤ a.length) :
    cycle_column s a = some (a.rotate s) := by
  rcases Nat.eq_zero_or_pos a.length with h0 | hpos
  · have ha : a = [] := List.length_eq_zero.mp h0
    subst ha
    have hs0 : s = 0 := by omega
    subst hs0
    simp [cycle_column, List.rotate]
  · obtain ⟨b, hfold, hlen, h1, h2⟩ :=
      cycle_cycles_spec a.length s hpos hs a rfl (Nat.gcd s a.length) (le_refl _)
    have hColumn : cycle_column s a = some b := hfold
    rw [hColumn]
    congr 1
    apply List.ext
    intro n
    by_cases hn : n < a.length
    · obtain ⟨i, u, hi, hu, hpos_eq⟩ := cycPos_cover a.length s hpos n hn
      rw [← hpos_eq, h1 i u hi hu, List.get?_rotate]
      rw [hpos_eq]
      exact hn
    · rw [List.get?_eq_none.mpr (by omega), List.get?_eq_none.mpr (by
        rw [List.length_rotate]; omega)]

theorem intRange_nodup (lo hi : Int) : (intRange lo hi).Nodup := by
  refine List.Nodup.map ?_ (List.nodup_range _)
  intro t t' h
  have h2 : lo + (t : Int) = lo + (t' : Int) := h
  omega

theorem intRange_mem (lo hi v : Int) : v ∈ intRange lo hi ↔ lo ≤ v ∧ v ≤ hi := by
  simp only [intRange, List.mem_map, List.mem_range, extent]
  constructor
  · rintro ⟨t, ht, rfl⟩
    omega
  · intro ⟨h1, h2⟩
    refine ⟨(v - lo).toNat, by omega, ?_⟩
    show lo + (((v - lo).toNat : Nat) : Int) = v
    omega

theorem colOf_length (sf : Canvas) (y_lo : Int) (H : Nat) (z x : Int) :
    (colOf sf y_lo H z x).length = H := by
  simp [colOf]

theorem colOf_get? (sf : Canvas) (y_lo : Int) (H : Nat) (z x : Int) (k : Nat)
    (hk : k < H) :
    (colOf sf y_lo H z x).get? k = some (sf (y_lo + (k : Int)) z x) := by
  simp only [colOf, List.get?_map, List.get?_range hk, Option.map_some']

theorem colOf_congr (c c' : Canvas) (y_lo : Int) (H : Nat) (z x : Int)
    (h : ∀ k : Nat, k < H → c (y_lo + (k : Int)) z x = c' (y_lo + (k : Int)) z x) :
    colOf c y_lo H z x = colOf c' y_lo H z x := by
  unfold colOf
  apply List.map_congr_left
  intro k hk
  exact h k (List.mem_range.mp hk)

theorem putCol_ne (sf : Canvas) (y_lo z x : Int) (col : List Cell) (y' z' x' : Int)
    (h : ¬(z' = z ∧ x' = x ∧ y_lo ≤ y' ∧ y' < y_lo + (col.length : Int))) :
    putCol sf y_lo z x col y' z' x' = sf y' z' x' := by
  simp only [putCol, if_neg h]

theorem putCol_at (sf : Canvas) (y_lo z x : Int) (col : List Cell) (k : Nat)
    (hk : k < col.length) :
    putCol sf y_lo z x col (y_lo + (k : Int)) z x = col.getD k (0, 0) := by
  have hcond : z = z ∧ x = x ∧ y_lo ≤ y_lo + (k : Int) ∧
      y_lo + (k : Int) < y_lo + (col.length : Int) := ⟨rfl, rfl, by omega, by omega⟩
  unfold putCol
  rw [if_pos hcond]
  have hidx : (y_lo + (k : Int) - y_lo).toNat = k := by omega
  rw [hidx]

theorem getD_of_get?_some {α : Type} [Inhabited α] :
    ∀ (l : List α) (n : Nat) (v d : α), l.get? n = some v → l.getD n d = v := by
  intro l
  induction l with
  | nil => intro n v d h; cases h
  | cons a l ih =>
    intro n v d h
    cases n with
    | zero => cases h; rfl
    | succ m => exact ih m v d h

theorem colOf_putCol_other (c : Canvas) (y_lo : Int) (H : Nat) (z x z' x' : Int)
    (col : List Cell) (h : ¬(z' = z ∧ x' = x)) :
    colOf (putCol c y_lo z x col) y_lo H z' x' = colOf c y_lo H z' x' := by
  apply colOf_congr
  intro k _
  apply putCol_ne
  intro hcontra
  exact h ⟨hcontra.1, hcontra.2.1⟩

theorem cycle_inner_spec (sf : Canvas) (y_lo : Int) (H s : Nat) (hs : s ≤ H) (x : Int) :
    ∀ (zs : List Int), zs.Nodup → ∀ (c : Canvas),
      (∀ z ∈ zs, colOf c y_lo H z x = colOf sf y_lo H z x) →
      ∃ c', (zs.foldlM (fun c z =>
          match cycle_column s (colOf c y_lo H z x) with
          | none => none
          | some col1 => some (putCol c y_lo z x col1)) c) = some c' ∧
        (∀ z ∈ zs, ∀ k : Nat, k < H →
          c' (y_lo + (k : Int)) z x = sf (y_lo + (((k + s) % H : Nat) : Int)) z x) ∧
        (∀ y' z' x', (x' ≠ x ∨ z' ∉ zs ∨ ¬(y_lo ≤ y' ∧ y' < y_lo + (H : Int))) →
          c' y' z' x' = c y' z' x') := by
  intro zs
  induction zs with
  | nil =>
    intro _ c _
    exact ⟨c, rfl, fun z hz => absurd hz (List.not_mem_nil z), fun _ _ _ _ => rfl⟩
  | cons z0 rest ih =>
    intro hnodup c hc
    have hz0rest : z0 ∉ rest := (List.nodup_cons.mp hnodup).1
    have hcol0 : colOf c y_lo H z0 x = colOf sf y_lo H z0 x :=
      hc z0 (List.mem_cons_self z0 rest)
    have hrot : cycle_column s (colOf c y_lo H z0 x) =
        some ((colOf sf y_lo H z0 x).rotate s) := by
      rw [hcol0]
      exact cycle_column_eq_rotate _ s (by rw [colOf_length]; exact hs)
    have hc1 : ∀ z ∈ rest, colOf (putCol c y_lo z0 x ((colOf sf y_lo H z0 x).rotate s))
        y_lo H z x = colOf sf y_lo H z x := by
      intro z hz
      rw [colOf_putCol_other]
      · exact hc z (List.mem_cons_of_mem z0 hz)
      · intro hcontra
        exact hz0rest (hcontra.1 ▸ hz)
    obtain ⟨c', hfold, h1, h2⟩ :=
      ih (List.nodup_cons.mp hnodup).2 (putCol c y_lo z0 x ((colOf sf y_lo H z0 x).rotate s)) hc1
    refine ⟨c', ?_, ?_, ?_⟩
    · rw [List.foldlM_cons, hrot]
      exact hfold
    · intro z hz k hk
      rcases List.mem_cons.mp hz with rfl | hz2
      · have hH1 : 1 ≤ H := by omega
        have hne : ∀ y' z' x', (x' ≠ x ∨ z' ∉ rest ∨ ¬(y_lo ≤ y' ∧ y' < y_lo + (H : Int))) →
            c' y' z' x' = putCol c y_lo z x ((colOf sf y_lo H z x).rotate s) y' z' x' := h2
        rw [hne _ z x (Or.inr (Or.inl hz0rest))]
        have hrlen : ((colOf sf y_lo H z x).rotate s).length = H := by
          rw [List.length_rotate, colOf_length]
        rw [putCol_at _ _ _ _ _ k (by omega)]
        have hget : ((colOf sf y_lo H z x).rotate s).get? k =
            some (sf (y_lo + ((((k + s) % H : Nat)) : Int)) z x) := by
          rw [List.get?_rotate (by rw [colOf_length]; omega), colOf_length]
          exact colOf_get? sf y_lo H z x _ (Nat.mod_lt _ (by omega))
        exact getD_of_get?_some _ k _ (0, 0) hget
      · exact h1 z hz2 k hk
    · intro y' z' x' hout
      have hout2 : x' ≠ x ∨ z' ∉ rest ∨ ¬(y_lo ≤ y' ∧ y' < y_lo + (H : Int)) := by
        rcases hout with h | h | h
        · exact Or.inl h
        · exact Or.inr (Or.inl (fun hm => h (List.mem_cons_of_mem z0 hm)))
        · exact Or.inr (Or.inr h)
      rw [h2 y' z' x' hout2]
      apply putCol_ne
      intro hcontra
      obtain ⟨hz', hx', hy1, hy2⟩ := hcontra
      rw [List.length_rotate, colOf_length] at hy2
      rcases hout with h | h | h
      · exact h hx'
      · exact h (hz' ▸ List.mem_cons_self z0 rest)
      · exact h ⟨hy1, hy2⟩

theorem cycle_outer_spec (sf : Canvas) (y_lo : Int) (H s : Nat) (hs : s ≤ H)
    (zs : List Int) (hzs : zs.Nodup) :
    ∀ (xs : List Int), xs.Nodup → ∀ (c : Canvas),
      (∀ x ∈ xs, ∀ z ∈ zs, colOf c y_lo H z x = colOf sf y_lo H z x) →
      ∃ c', (xs.foldlM (fun c x => zs.foldlM (fun c z =>
          match cycle_column s (colOf c y_lo H z x) with
          | none => none
          | some col1 => some (putCol c y_lo z x col1)) c) c) = some c' ∧
        (∀ x ∈ xs, ∀ z ∈ zs, ∀ k : Nat, k < H →
          c' (y_lo + (k : Int)) z x = sf (y_lo + (((k + s) % H : Nat) : Int)) z x) ∧
        (∀ y' z' x', (x' ∉ xs ∨ z' ∉ zs ∨ ¬(y_lo ≤ y' ∧ y' < y_lo + (H : Int))) →
          c' y' z' x' = c y' z' x') := by
  intro xs
  induction xs with
  | nil =>
    intro _ c _
    exact ⟨c, rfl, fun x hx => absurd hx (List.not_mem_nil x), fun _ _ _ _ => rfl⟩
  | cons x0 rest ih =>
    intro hnodup c hc
    have hx0rest : x0 ∉ rest := (List.nodup_cons.mp hnodup).1
    obtain ⟨c1, hinner, hi1, hi2⟩ :=
      cycle_inner_spec sf y_lo H s hs x0 zs hzs c (hc x0 (List.mem_cons_self x0 rest))
    have hc1 : ∀ x ∈ rest, ∀ z ∈ zs, colOf c1 y_lo H z x = colOf sf y_lo H z x := by
      intro x hx z hz
      rw [colOf_congr c1 c y_lo H z x
        (fun k _ => hi2 _ z x (Or.inl (fun he => hx0rest (he ▸ hx))))]
      exact hc x (List.mem_cons_of_mem x0 hx) z hz
    obtain ⟨c', hfold, h1, h2⟩ := ih (List.nodup_cons.mp hnodup).2 c1 hc1
    refine ⟨c', ?_, ?_, ?_⟩
    · rw [List.foldlM_cons, hinner]
      exact hfold
    · intro x hx z hz k hk
      rcases List.mem_cons.mp hx with rfl | hx2
      · rw [h2 _ z x (Or.inl hx0rest)]
        exact hi1 z hz k hk
      · exact h1 x hx2 z hz k hk
    · intro y' z' x' hout
      have hout2 : x' ∉ rest ∨ z' ∉ zs ∨ ¬(y_lo ≤ y' ∧ y' < y_lo + (H : Int)) := by
        rcases hout with h | h | h
        · exact Or.inl (fun hm => h (List.mem_cons_of_mem x0 hm))
        · exact Or.inr (Or.inl h)
        · exact Or.inr (Or.inr h)
      rw [h2 y' z' x' hout2]
      apply hi2
      rcases hout with h | h | h
      · exact Or.inl (fun he => h (he ▸ List.mem_cons_self x0 rest))
      · exact Or.inr (Or.inl h)
      · exact Or.inr (Or.inr h)

theorem cycle_area_down_spec (sf : Canvas) (x_lo y_lo z_lo x_hi y_hi z_hi : Int)
    (s : Nat) (hs : s ≤ extent y_lo y_hi) :
    cycle_area_down sf x_lo y_lo z_lo x_hi y_hi z_hi s =
      some (regionRot sf x_lo y_lo z_lo x_hi y_hi z_hi s) := by
  obtain ⟨c', hfold, h1, h2⟩ :=
    cycle_outer_spec sf y_lo (extent y_lo y_hi) s hs (intRange z_lo z_hi)
      (intRange_nodup z_lo z_hi) (intRange x_lo x_hi) (intRange_nodup x_lo x_hi)
      sf (fun _ _ _ _ => rfl)
  have hca : cycle_area_down sf x_lo y_lo z_lo x_hi y_hi z_hi s = some c' := hfold
  rw [hca]
  congr 1
  funext y' z' x'
  unfold regionRot
  by_cases hx : x_lo ≤ x' ∧ x' ≤ x_hi
  · by_cases hz : z_lo ≤ z' ∧ z' ≤ z_hi
    · by_cases hy : y_lo ≤ y' ∧ y' < y_lo + (extent y_lo y_hi : Int)
      · obtain ⟨k, hkH, rfl⟩ : ∃ k : Nat, k < extent y_lo y_hi ∧
            y' = y_lo + (k : Int) := ⟨(y' - y_lo).toNat, by omega, by omega⟩
        rw [if_pos ⟨hx.1, hx.2, hz.1, hz.2, hy.1, hy.2⟩]
        have hidx : (y_lo + (k : Int) - y_lo).toNat = k := by omega
        rw [hidx]
        exact h1 x' ((intRange_mem x_lo x_hi x').mpr hx)
          z' ((intRange_mem z_lo z_hi z').mpr hz) k hkH
      · rw [if_neg (by tauto)]
        exact h2 y' z' x' (Or.inr (Or.inr hy))
    · rw [if_neg (by tauto)]
      exact h2 y' z' x'
        (Or.inr (Or.inl (fun hm => hz ((intRange_mem z_lo z_hi z').mp hm))))
  · rw [if_neg (by tauto)]
    exact h2 y' z' x'
      (Or.inl (fun hm => hx ((intRange_mem x_lo x_hi x').mp hm)))

theorem rot_cancel (H s k : Nat) (hs : s ≤ H) (hk : k < H) :
    ((k + (H - s) % H) % H + s) % H = k := by
  rw [Nat.mod_add_mod]
  rcases Nat.eq_zero_or_pos s with h0 | hpos
  · subst h0
    simp [Nat.mod_eq_of_lt hk]
  · have hlt : H - s < H := by omega
    rw [Nat.mod_eq_of_lt hlt]
    have he : k + (H - s) + s = k + H := by omega
    rw [he, Nat.add_mod_right, Nat.mod_eq_of_lt hk]

-- ## C3

/-- C3 counterexample: rotating a region of column height 2 by shift 3 never
terminates normally — the conditional-subtraction walk steps to index 2,
outside the rotated region (`none` in the embedding; in the source the walk
reads and writes below the region and eventually indexes outside the grid) —
so following it with a rotation by `(2 - 3) mod 2 = 1` does not restore the
original contents. -/
theorem c3_large_shift_breaks_round_trip :
    ((cycle_area_down coordCanvas 0 0 0 0 1 0 3).bind
        (fun c => cycle_area_down c 0 0 0 0 1 0 1)) = none ∧
      ((cycle_area_down coordCanvas 0 0 0 0 1 0 3).bind
        (fun c => cycle_area_down c 0 0 0 0 1 0 1)) ≠ some coordCanvas := by
  refine ⟨rfl, ?_⟩
  intro h
  rw [show ((cycle_area_down coordCanvas 0 0 0 0 1 0 3).bind
      (fun c => cycle_area_down c 0 0 0 0 1 0 1)) = none from rfl] at h
  cases h

/-- C3 amended: for every canvas region of column height
`H = y_hi - y_lo + 1 >= 1` and every shift `s <= H`, rotating down by `s` and
then by `(H - s) mod H` restores the entire canvas exactly, and a single
rotation permutes each region column, leaving its multiset of
`(block, state)` values unchanged. -/
theorem c3_rotate_round_trip (sf : Canvas) (x_lo y_lo z_lo x_hi y_hi z_hi : Int)
    (s : Nat) (hH : 1 ≤ extent y_lo y_hi) (hs : s ≤ extent y_lo y_hi) :
    (((cycle_area_down sf x_lo y_lo z_lo x_hi y_hi z_hi s).bind
        (fun c => cycle_area_down c x_lo y_lo z_lo x_hi y_hi z_hi
          ((extent y_lo y_hi - s) % extent y_lo y_hi))) = some sf) ∧
      (∀ c', cycle_area_down sf x_lo y_lo z_lo x_hi y_hi z_hi s = some c' →
        ∀ z x : Int, z_lo ≤ z → z ≤ z_hi → x_lo ≤ x → x ≤ x_hi →
          ((colOf c' y_lo (extent y_lo y_hi) z x : List Cell) : Multiset Cell) =
            ((colOf sf y_lo (extent y_lo y_hi) z x : List Cell) : Multiset Cell)) := by
  have hs2 : (extent y_lo y_hi - s) % extent y_lo y_hi ≤ extent y_lo y_hi :=
    le_of_lt (Nat.mod_lt _ (by omega))
  constructor
  · rw [cycle_area_down_spec sf x_lo y_lo z_lo x_hi y_hi z_hi s hs]
    have hb : (some (regionRot sf x_lo y_lo z_lo x_hi y_hi z_hi s)).bind
        (fun c => cycle_area_down c x_lo y_lo z_lo x_hi y_hi z_hi
          ((extent y_lo y_hi - s) % extent y_lo y_hi)) =
        cycle_area_down (regionRot sf x_lo y_lo z_lo x_hi y_hi z_hi s)
          x_lo y_lo z_lo x_hi y_hi z_hi
          ((extent y_lo y_hi - s) % extent y_lo y_hi) := rfl
    rw [hb, cycle_area_down_spec _ x_lo y_lo z_lo x_hi y_hi z_hi _ hs2]
    congr 1
    funext y' z' x'
    by_cases hx : x_lo ≤ x' ∧ x' ≤ x_hi
    · by_cases hz : z_lo ≤ z' ∧ z' ≤ z_hi
      · by_cases hy : y_lo ≤ y' ∧ y' < y_lo + (extent y_lo y_hi : Int)
        · obtain ⟨k, hkH, rfl⟩ : ∃ k : Nat, k < extent y_lo y_hi ∧
              y' = y_lo + (k : Int) := ⟨(y' - y_lo).toNat, by omega, by omega⟩
          show regionRot (regionRot sf x_lo y_lo z_lo x_hi y_hi z_hi s)
              x_lo y_lo z_lo x_hi y_hi z_hi _ _ z' x' = sf _ z' x'
          unfold regionRot
          rw [if_pos ⟨hx.1, hx.2, hz.1, hz.2, hy.1, hy.2⟩]
          have hidx : (y_lo + (k : Int) - y_lo).toNat = k := by omega
          rw [hidx]
          have hm : (k + (extent y_lo y_hi - s) % extent y_lo y_hi) %
              extent y_lo y_hi < extent y_lo y_hi := Nat.mod_lt _ (by omega)
          rw [if_pos ⟨hx.1, hx.2, hz.1, hz.2, by omega, by omega⟩]
          have hidx2 : (y_lo + (((k + (extent y_lo y_hi - s) % extent y_lo y_hi) %
              extent y_lo y_hi : Nat) : Int) - y_lo).toNat =
              (k + (extent y_lo y_hi - s) % extent y_lo y_hi) % extent y_lo y_hi := by
            omega
          rw [hidx2, rot_cancel _ _ _ hs hkH]
        · show regionRot (regionRot sf x_lo y_lo z_lo x_hi y_hi z_hi s)
              x_lo y_lo z_lo x_hi y_hi z_hi _ y' z' x' = sf y' z' x'
          unfold regionRot
          rw [if_neg (by tauto), if_neg (by tauto)]
      · show regionRot (regionRot sf x_lo y_lo z_lo x_hi y_hi z_hi s)
            x_lo y_lo z_lo x_hi y_hi z_hi _ y' z' x' = sf y' z' x'
        unfold regionRot
        rw [if_neg (by tauto), if_neg (by tauto)]
    · show regionRot (regionRot sf x_lo y_lo z_lo x_hi y_hi z_hi s)
          x_lo y_lo z_lo x_hi y_hi z_hi _ y' z' x' = sf y' z' x'
      unfold regionRot
      rw [if_neg (by tauto), if_neg (by tauto)]
  · intro c' hc' z x hz1 hz2 hx1 hx2
    have hc'2 : c' = regionRot sf x_lo y_lo z_lo x_hi y_hi z_hi s := by
      have hspec := cycle_area_down_spec sf x_lo y_lo z_lo x_hi y_hi z_hi s hs
      rw [hc'] at hspec
      exact Option.some_inj.mp hspec
    subst hc'2
    have hcol : colOf (regionRot sf x_lo y_lo z_lo x_hi y_hi z_hi s) y_lo
        (extent y_lo y_hi) z x = (colOf sf y_lo (extent y_lo y_hi) z x).rotate s := by
      apply List.ext
      intro n
      by_cases hn : n < extent y_lo y_hi
      · rw [colOf_get? _ _ _ _ _ _ hn]
        rw [List.get?_rotate (by rw [colOf_length]; exact hn), colOf_length,
          colOf_get? _ _ _ _ _ _ (Nat.mod_lt _ (by omega))]
        congr 1
        show regionRot sf x_lo y_lo z_lo x_hi y_hi z_hi s (y_lo + (n : Int)) z x = _
        unfold regionRot
        rw [if_pos ⟨hx1, hx2, hz1, hz2, by omega, by omega⟩]
        have hidx : (y_lo + (n : Int) - y_lo).toNat = n := by omega
        rw [hidx]
      · rw [List.get?_eq_none.mpr (by rw [colOf_length]; omega),
          List.get?_eq_none.mpr (by rw [List.length_rotate, colOf_length]; omega)]
    rw [hcol]
    exact Multiset.coe_eq_coe.mpr (List.rotate_perm _ s)

/-- C3 witness: round trip on a height-2 region with shift 1. -/
theorem c3_rotate_round_trip_w :
    ((cycle_area_down coordCanvas 0 0 0 0 1 0 1).bind
        (fun c => cycle_area_down c 0 0 0 0 1 0 ((extent 0 1 - 1) % extent 0 1))) =
      some coordCanvas :=
  (c3_rotate_round_trip coordCanvas 0 0 0 0 1 0 1 (by decide) (by decide)).1

-- ## C9

/-- C9: `export_schematic` is fail-fast: a `PolyphonyException` from the note
layout or a `TorchTowerException` (or any error) from the clock assembly
propagates out of `export_schematic`, and the external writer is reached —
producing a `Saved` value — only when both generation stages return
normally, in which case the saved file is the fully generated canvas; no
partially generated canvas is ever serialized. -/
theorem c9_failfast (song : SongInfo) (rows : Nat) :
    (∀ e, gen_notes ⟨emptyCanvas, []⟩ 0 0 0 rows ((song.length + rows - 1) / rows)
        (REDSTONE_MAX + 6 + (song.tick_interval - 1) / 8) song = .error e →
      export_schematic song rows = .error e) ∧
      (∀ st1 d e,
        gen_notes ⟨emptyCanvas, []⟩ 0 0 0 rows ((song.length + rows - 1) / rows)
            (REDSTONE_MAX + 6 + (song.tick_interval - 1) / 8) song = .ok (st1, d) →
        gen_engine (gen_lines st1.sf 0 1 0 rows ((song.length + rows - 1) / rows) d
            LINE_BLOCK) (d : Int) 2 0 rows ((song.length + rows - 1) / rows)
            song.tick_interval WIRING_BLOCK WIRING_SLAB = .error e →
        export_schematic song rows = .error e) ∧
      (∀ out, export_schematic song rows = .ok out →
        ∃ st1 d sf3,
          gen_notes ⟨emptyCanvas, []⟩ 0 0 0 rows ((song.length + rows - 1) / rows)
              (REDSTONE_MAX + 6 + (song.tick_interval - 1) / 8) song = .ok (st1, d) ∧
            gen_engine (gen_lines st1.sf 0 1 0 rows ((song.length + rows - 1) / rows) d
                LINE_BLOCK) (d : Int) 2 0 rows ((song.length + rows - 1) / rows)
                song.tick_interval WIRING_BLOCK WIRING_SLAB = .ok sf3 ∧
            out = ⟨sf3, st1.ents⟩) := by
  refine ⟨?_, ?_, ?_⟩
  · intro e h
    simp only [export_schematic, h]
  · intro st1 d e h1 h2
    simp only [export_schematic, h1, h2]
  · intro out
    simp only [export_schematic]
    cases hgn : gen_notes ⟨emptyCanvas, []⟩ 0 0 0 rows ((song.length + rows - 1) / rows)
        (REDSTONE_MAX + 6 + (song.tick_interval - 1) / 8) song with
    | error e =>
      intro h
      cases h
    | ok p =>
      obtain ⟨st1, d⟩ := p
      change (match gen_engine (gen_lines st1.sf 0 1 0 rows
          ((song.length + rows - 1) / rows) d LINE_BLOCK) (d : Int) 2 0 rows
          ((song.length + rows - 1) / rows) song.tick_interval
          WIRING_BLOCK WIRING_SLAB with
        | Except.error e => (Except.error e : Except GenErr Saved)
        | Except.ok sf3 => Except.ok ⟨sf3, st1.ents⟩) = Except.ok out → _
      cases hge : gen_engine (gen_lines st1.sf 0 1 0 rows
          ((song.length + rows - 1) / rows) d LINE_BLOCK) (d : Int) 2 0 rows
          ((song.length + rows - 1) / rows) song.tick_interval
          WIRING_BLOCK WIRING_SLAB with
      | error e =>
        intro h
        cases h
      | ok sf3 =>
        intro h
        cases h
        exact ⟨st1, d, sf3, rfl, hge, rfl⟩

/-- C9 witness: the 22-note chord song aborts with `PolyphonyException` and
`export_schematic` propagates it, so no file is saved. -/
theorem c9_failfast_w : export_schematic c9song 2 = .error .polyphony :=
  (c9_failfast c9song 2).1 .polyphony (by rfl)
